import Mathlib

/-! # Link2Gether hub (`server.go`): a shallow embedding

The Go program keeps a set of connected clients, a shared playback record and a
per-user counter map, and relays messages between clients through bounded
channels.  This file embeds the data of `server.go` and the code of
`readPump`, `handleMessages` and `sendPresence` as functions on an explicit
hub state, and proves properties of them.

Conventions of the embedding:

* a `*Client` pointer is a `ClientId`; the struct it points to lives in
  `Hub.heap`;
* a buffered Go channel is its buffer, its capacity and its closed flag;
* the Go map `clients` is the list of its keys, in the order a `range` loop
  visits them (Go leaves that order unspecified: every theorem holds for every
  list order);
* `float64` values are only stored and copied by the program, never computed
  with; they are carried as their IEEE-754 bit pattern;
* a run-time panic (send on a closed channel, close of a closed channel) is an
  explicit outcome, `Ctl.panic`, next to the state in which it happened;
* one pass of the hub loop, or the handling of one inbound message, is one step
  of the system; what the tasks beside the hub do to mailboxes between the
  statements of such a step is the step `Step.buffers`.
-/

namespace Link2Gether

/-- A Go `float64`, as its 64-bit IEEE-754 pattern: the program only copies such values. -/
structure Float64 where
  bits : Nat
  deriving DecidableEq, Repr

/-- The `float64` zero value `0`. -/
def Float64.zero : Float64 := ⟨0⟩

/-- The `float64` value `12.5` (sign 0, exponent `0x402`, fraction `0x9000000000000`). -/
def Float64.twelveAndHalf : Float64 := ⟨0x4029000000000000⟩

/-- The `float64` value `3.5` (sign 0, exponent `0x400`, fraction `0xC000000000000`). -/
def Float64.threeAndHalf : Float64 := ⟨0x400C000000000000⟩

/-- The `Message` struct of `server.go:20-31`. -/
structure Message where
  type : String
  Sender : String
  Content : String
  Users : List String
  VideoUrl : String
  PlaybackState : String
  CurrentTime : Float64
  Queue : List String
  Index : Int
  WatchHours : Float64
  deriving DecidableEq, Repr

/-- The Go zero value `Message{}`. -/
def Message.zero : Message :=
  { type := "", Sender := "", Content := "", Users := [], VideoUrl := "",
    PlaybackState := "", CurrentTime := Float64.zero, Queue := [], Index := 0,
    WatchHours := Float64.zero }

/-- A buffered `chan Message`: buffered messages (oldest first), capacity, closed flag. -/
structure Chan where
  buf : List Message
  cap : Nat
  closed : Bool
  deriving DecidableEq, Repr

/-- The result of a `select` with one send case and a `default` case. -/
inductive TrySend where
  | sent (ch : Chan)
  | full
  | closedPanic
  deriving DecidableEq, Repr

/-- Non-blocking send `select { case ch <- m: ... default: ... }`.
A send on a closed channel panics; otherwise the send case is taken when the
buffer has a free slot and the `default` case when it has none. -/
def Chan.trySend (ch : Chan) (m : Message) : TrySend :=
  if ch.closed then TrySend.closedPanic
  else if ch.buf.length < ch.cap then TrySend.sent { ch with buf := ch.buf ++ [m] }
  else TrySend.full

/-- The builtin `close(ch)`: panics (`none`) on a channel that is already closed. -/
def Chan.close (ch : Chan) : Option Chan :=
  if ch.closed then none else some { ch with closed := true }

/-- The `Client` struct of `server.go:13-18`; of `conn` only whether `Close` was called. -/
structure Client where
  name : String
  send : Chan
  connClosed : Bool
  deriving DecidableEq, Repr

abbrev ClientId := Nat

/-- The package-level variables of `server.go:42-57`, with the client structs they point to. -/
structure Hub where
  /-- The `Client` struct at each address. -/
  heap : ClientId → Client
  /-- The address of the next client `handleConnections` builds: the addresses below it
  are those of the clients built so far. -/
  next : ClientId
  /-- The keys of the map `clients`, in the order a `range` loop visits them. -/
  clients : List ClientId
  /-- The map `clientData`. -/
  clientData : String → Option Float64
  /-- The messages buffered in the channel `broadcast`, oldest first. -/
  broadcast : List Message
  /-- The variable `sharedVideoState`. -/
  sharedVideoState : Message

/-- Where a task stands after a piece of code ran. -/
inductive Ctl where
  /-- The code ran to its end: back to the task's loop. -/
  | next
  /-- The task is at `unregister <- c` with its own session. -/
  | unregister
  /-- The task is at `broadcast <- msg` (`server.go:189`) with this message. -/
  | forward (m : Message)
  /-- The task panicked. -/
  | panic
  deriving DecidableEq, Repr

/-- The state a piece of code leaves, and where its task stands. -/
structure Outcome where
  state : Hub
  ctl : Ctl

/-- Store a new channel value in `c.send`. -/
def Hub.setSend (s : Hub) (c : ClientId) (ch : Chan) : Hub :=
  { s with heap := fun d => if d = c then { s.heap c with send := ch } else s.heap d }

/-- The effect of `c.conn.Close()` on the model: the stream is closed (closing twice is
an error value in Go, not a panic). -/
def Hub.closeConn (s : Hub) (c : ClientId) : Hub :=
  { s with heap := fun d => if d = c then { s.heap c with connClosed := true } else s.heap d }

/-- The builtin `delete(clients, c)`. -/
def Hub.deleteClient (s : Hub) (c : ClientId) : Hub :=
  { s with clients := s.clients.filter (fun d => d ≠ c) }

/-- The assignment `clients[c] = true`: a key already present stays where it is. -/
def Hub.addClient (s : Hub) (c : ClientId) : Hub :=
  { s with clients := if c ∈ s.clients then s.clients else s.clients ++ [c] }

/-- A sequence of non-blocking sends `select { case client.send <- m: default: /* log, skip */ }`,
each to the mailbox of the paired client.  This is the body of the fan-out loops of
`readPump` (`server.go:179-185`) and of `sendPresence` (`server.go:331-337`, `346-352`);
a send on a closed mailbox panics and ends the sequence. -/
def trySends : List (ClientId × Message) → Hub → Outcome
  | [], s => ⟨s, Ctl.next⟩
  | (c, m) :: rest, s =>
    match (s.heap c).send.trySend m with
    | TrySend.sent ch => trySends rest (s.setSend c ch)
    | TrySend.full => trySends rest s
    | TrySend.closedPanic => ⟨s, Ctl.panic⟩

/-- The `users` slice of `sendPresence` (`server.go:311-317`): one entry per key of `clients`. -/
def presenceUsers (s : Hub) : List Message :=
  s.clients.map (fun c => { Message.zero with Sender := (s.heap c).name, WatchHours := Float64.zero })

/-- The `presenceMsg` of `sendPresence` (`server.go:318-327`). -/
def presenceMsg (s : Hub) : Message :=
  { Message.zero with type := "presence", Users := (presenceUsers s).map (fun u => u.Sender) }

/-- The `watchHoursMsg` of `sendPresence` (`server.go:341-345`). -/
def watchHoursMsg (user : Message) : Message :=
  { Message.zero with type := "watchHours", Sender := user.Sender, WatchHours := user.WatchHours }

/-- The sends `sendPresence` attempts, in program order: the presence message to every
client (`server.go:331-337`), then for every user the watch-hours message to every
client (`server.go:340-353`). -/
def presenceSends (s : Hub) : List (ClientId × Message) :=
  s.clients.map (fun c => (c, presenceMsg s)) ++
    (presenceUsers s).flatMap (fun u => s.clients.map (fun c => (c, watchHoursMsg u)))

/-- The function `sendPresence` (`server.go:308-354`). -/
def sendPresence (s : Hub) : Outcome :=
  trySends (presenceSends s) s

/-- One pass of the loop of `readPump` after a successful `ReadJSON` (`server.go:145-189`),
for the session `c` and the decoded message `msg0`.  The send of line 189 itself
is `forwardBroadcast`. -/
def readPump (s : Hub) (c : ClientId) (msg0 : Message) : Outcome :=
  let msg : Message := { msg0 with Sender := (s.heap c).name }
  if msg.type = "video" then
    let msg : Message := if msg.PlaybackState = "stop" then { msg with PlaybackState := "pause" } else msg
    ⟨{ s with sharedVideoState := msg }, Ctl.forward msg⟩
  else if msg.type = "sync" then
    let currentState := s.sharedVideoState
    match (s.heap c).send.trySend currentState with
    | TrySend.sent ch => ⟨s.setSend c ch, Ctl.next⟩
    | TrySend.full => ⟨s, Ctl.unregister⟩
    | TrySend.closedPanic => ⟨s, Ctl.panic⟩
  else if msg.type = "watchHours" then
    let s1 : Hub :=
      { s with clientData := fun k => if k = msg.Sender then some msg.WatchHours else s.clientData k }
    trySends (s1.clients.map (fun client => (client, msg))) s1
  else
    ⟨s, Ctl.forward msg⟩

/-- The blocking send `broadcast <- msg` of `server.go:189` on the intake of capacity 256
(`server.go:44`): `none` while the intake is full and the sender waits. -/
def forwardBroadcast (s : Hub) (msg : Message) : Option Hub :=
  if s.broadcast.length < 256 then some { s with broadcast := s.broadcast ++ [msg] } else none

/-- The loop of the broadcast case (`server.go:292-302`) over the keys still to visit. -/
def broadcastLoop (msg : Message) : List ClientId → Hub → Outcome
  | [], s => ⟨s, Ctl.next⟩
  | client :: rest, s =>
    match (s.heap client).send.trySend msg with
    | TrySend.sent ch => broadcastLoop msg rest (s.setSend client ch)
    | TrySend.full =>
      match (s.heap client).send.close with
      | some ch => broadcastLoop msg rest (((s.deleteClient client).setSend client ch).closeConn client)
      | none => ⟨s.deleteClient client, Ctl.panic⟩
    | TrySend.closedPanic => ⟨s, Ctl.panic⟩

/-- How one `select` of the goroutine of the register case ends. -/
inductive Select where
  /-- The send case ran; the state after it. -/
  | sent (s : Hub)
  /-- The mailbox was found closed: the send panicked. -/
  | panicked (s : Hub)
  /-- The timer case ran: no slot came free during the wait. -/
  | timer (s : Hub)

/-- One `select` of the goroutine of the register case (`server.go:265-271`), sending the
value `v` it read from `sharedVideoState` on entry.  The send goes through as soon as
the mailbox has a free slot; while it has none the send waits, and `window` lists
what the other tasks do to the state during the 500 ms of the wait, one step after
the other; when the window is over the timer case runs.  A closed mailbox panics. -/
def snapshotSelect (c : ClientId) (v : Message) : List (Hub → Hub) → Hub → Select
  | [], s =>
    match (s.heap c).send.trySend v with
    | TrySend.sent ch => Select.sent (s.setSend c ch)
    | TrySend.full => Select.timer s
    | TrySend.closedPanic => Select.panicked s
  | step :: rest, s =>
    match (s.heap c).send.trySend v with
    | TrySend.sent ch => Select.sent (s.setSend c ch)
    | TrySend.full => snapshotSelect c v rest (step s)
    | TrySend.closedPanic => Select.panicked s

/-- The loop of the goroutine of the register case (`server.go:264-274`), one window per
pass still to make: a pass that sends ends the goroutine, a panic is recovered at
`server.go:259-263`, a pass that ends on the timer leads to the next pass, and after
the last pass comes `unregister <- c`. -/
def sendInitialStateLoop (c : ClientId) : List (List (Hub → Hub)) → Hub → Outcome
  | [], s => ⟨s, Ctl.unregister⟩
  | window :: later, s =>
    match snapshotSelect c s.sharedVideoState window s with
    | Select.sent t => ⟨t, Ctl.next⟩
    | Select.panicked t => ⟨t, Ctl.panic⟩
    | Select.timer t => sendInitialStateLoop c later t

/-- The goroutine of `server.go:258-275` with its three passes; `w1`, `w2` and `w3` are
what the other tasks do during the three waits (`[]`: nothing). -/
def sendInitialState (w1 w2 w3 : List (Hub → Hub)) (s : Hub) (c : ClientId) : Outcome :=
  sendInitialStateLoop c [w1, w2, w3] s

/-- An event received by the `select` of `handleMessages`. -/
inductive Event where
  | register (client : ClientId)
  | unregister (client : ClientId)
  | broadcast (msg : Message)
  deriving DecidableEq, Repr

/-- One pass of the loop of `handleMessages` (`server.go:246-306`) on a received event.
The goroutine the register case starts is `sendInitialState`; it runs beside the hub. -/
def handleMessages (s : Hub) : Event → Outcome
  | Event.register client => sendPresence (s.addClient client)
  | Event.unregister client =>
    if client ∈ s.clients then
      match (s.heap client).send.close with
      | some ch => sendPresence (((s.deleteClient client).setSend client ch).closeConn client)
      | none => ⟨s.deleteClient client, Ctl.panic⟩
    else sendPresence s
  | Event.broadcast msg => broadcastLoop msg s.clients s

/-- The state after the unregister case removed the client: `delete`, `close(client.send)`
and `client.conn.Close()` (`server.go:281-283`). -/
def Hub.unregistered (s : Hub) (c : ClientId) : Hub :=
  ((s.deleteClient c).setSend c { (s.heap c).send with closed := true }).closeConn c

/-- One pass of `readPump` together with the unregister event it causes.  A pass that
ends at `unregister <- c` (`server.go:170`), or that panics and so leaves `readPump`
through its deferred `unregister <- c` (`server.go:115-118`), hands the session to
the hub: the channel is unbuffered, the send completes when the hub receives, and
the hub then runs its unregister case. -/
def readPumpHandover (s : Hub) (c : ClientId) (msg : Message) : Outcome :=
  match (readPump s c msg).ctl with
  | Ctl.unregister => handleMessages (readPump s c msg).state (Event.unregister c)
  | Ctl.panic => handleMessages (readPump s c msg).state (Event.unregister c)
  | _ => readPump s c msg

/-- The client built by `handleConnections` (`server.go:99-104`) at a fresh address. -/
def newClient (s : Hub) (username : String) : Hub :=
  { s with
    heap := fun d => if d = s.next then ⟨username, ⟨[], 2048, false⟩, false⟩ else s.heap d
    next := s.next + 1 }

/-- The receive `msg, ok := <-c.send` of `writePump` (`server.go:216`) when a message is buffered. -/
def recvMailbox (s : Hub) (c : ClientId) : Hub :=
  s.setSend c { (s.heap c).send with buf := (s.heap c).send.buf.tail }

/-- The initial value of `sharedVideoState` (`server.go:50-57`). -/
def initialVideoState : Message :=
  { Message.zero with type := "video", VideoUrl := "", PlaybackState := "pause",
                      CurrentTime := Float64.zero, Queue := [], Index := 0 }

/-- The state at program start (`server.go:42-57`): no client exists yet. -/
def init : Hub :=
  { heap := fun _ => ⟨"", ⟨[], 0, true⟩, true⟩
    next := 0
    clients := []
    clientData := fun _ => none
    broadcast := []
    sharedVideoState := initialVideoState }

/-- The messages a sequence of sends addresses to the client `d`, in order. -/
def msgsFor (d : ClientId) (l : List (ClientId × Message)) : List Message :=
  (l.filter (fun p => p.1 = d)).map Prod.snd

/-- The representation is sound: the keys of `clients` are distinct, and every
client in the set has an open mailbox. -/
def WF (s : Hub) : Prop :=
  s.clients.Nodup ∧ ∀ c ∈ s.clients, (s.heap c).send.closed = false

instance (s : Hub) : Decidable (WF s) := by
  unfold WF; infer_instance

/-- The mailbox of `c` has no free slot. -/
def Hub.mailboxFull (s : Hub) (c : ClientId) : Prop :=
  (s.heap c).send.cap ≤ (s.heap c).send.buf.length

instance (s : Hub) (c : ClientId) : Decidable (s.mailboxFull c) := by
  unfold Hub.mailboxFull; infer_instance

/-- The client record after one more message was buffered in its mailbox. -/
def Client.enqueue (cl : Client) (m : Message) : Client :=
  { cl with send := { cl.send with buf := cl.send.buf ++ [m] } }

/-- The client record after `close(client.send)` and `client.conn.Close()`. -/
def Client.shut (cl : Client) : Client :=
  { cl with send := { cl.send with closed := true }, connClosed := true }

/-- The messages `sendPresence` addresses to each client, in order: the presence message,
then one watch-hours message per user. -/
def presenceBatch (s : Hub) : List Message :=
  presenceMsg s :: (presenceUsers s).map watchHoursMsg

/-- The states `s` and `t` differ at most in the contents of mailboxes. -/
def BufOnly (s t : Hub) : Prop :=
  t.next = s.next ∧ t.clients = s.clients ∧ t.clientData = s.clientData ∧
  t.broadcast = s.broadcast ∧ t.sharedVideoState = s.sharedVideoState ∧
  ∀ d, (t.heap d).name = (s.heap d).name ∧ (t.heap d).connClosed = (s.heap d).connClosed ∧
    (t.heap d).send.cap = (s.heap d).send.cap ∧ (t.heap d).send.closed = (s.heap d).send.closed

/-- One atomic step of the running system.  Any task may take the next step; the
arguments of a step are arbitrary, so every order of events is covered. -/
inductive Step : Hub → Hub → Prop where
  /-- The function `handleConnections` builds a client and hands it to the hub, which runs
  its register case (`server.go:99-106`, `249-276`). -/
  | register (s : Hub) (username : String) :
      Step s (handleMessages (newClient s username) (Event.register s.next)).state
  /-- The goroutine started by the register case sends, or finds no free slot; what the
  other tasks do during its waits are steps of their own. -/
  | initialState (s : Hub) (c : ClientId) : Step s (sendInitialState [] [] [] s c).state
  /-- The hub receives a session on `unregister`. -/
  | unregister (s : Hub) (c : ClientId) : Step s (handleMessages s (Event.unregister c)).state
  /-- The hub takes the oldest message from the broadcast intake. -/
  | dequeue (s : Hub) : Step s { s with broadcast := s.broadcast.tail }
  /-- The hub runs its broadcast case on a message. -/
  | broadcast (s : Hub) (msg : Message) : Step s (handleMessages s (Event.broadcast msg)).state
  /-- A session handles one inbound message in `readPump`. -/
  | read (s : Hub) (c : ClientId) (msg : Message) : Step s (readPump s c msg).state
  /-- A session completes the send `broadcast <- msg` of `server.go:189`. -/
  | forward (s t : Hub) (msg : Message) (h : forwardBroadcast s msg = some t) : Step s t
  /-- A session takes a message from its mailbox in `writePump`. -/
  | write (s : Hub) (c : ClientId) : Step s (recvMailbox s c)
  /-- A later `range` loop over `clients` may visit the keys in another order. -/
  | reorder (s : Hub) (l : List ClientId) (h : l.Perm s.clients) : Step s { s with clients := l }
  /-- Tasks that run beside the hub (the fan-out of `readPump`, which holds no lock, the
  goroutine of the register case, `writePump`) may put messages into mailboxes and
  take messages out of them between any two statements of another task: the
  contents of mailboxes may change in any way. -/
  | buffers (s t : Hub) (h : BufOnly s t) : Step s t

/-- The states the system can be in: those reached from `init` by steps. -/
inductive Reachable : Hub → Prop where
  | init : Reachable init
  | step {s t : Hub} (h : Reachable s) (st : Step s t) : Reachable t

/-- The membership invariant: the keys of `clients` are distinct, created and have an open
mailbox, and every created session that is not in `clients` has a closed mailbox. -/
def Inv (s : Hub) : Prop :=
  s.clients.Nodup ∧
  (∀ c ∈ s.clients, c < s.next ∧ (s.heap c).send.closed = false) ∧
  (∀ c, c < s.next → c ∉ s.clients → (s.heap c).send.closed = true)

/-! ## The lock `mu`

The functions above give what the code does to the data.  The functions below
give, for the same code, the operations on `mu` and the accesses to `clients`
in program order, so that the lock discipline can be stated. -/

/-- What the lock discipline sees of a statement. -/
inductive Access where
  /-- The call `mu.Lock()`. -/
  | lock
  /-- The call `mu.Unlock()`, direct or deferred. -/
  | unlock
  /-- A read or write of the map `clients`: lookup, insert, delete, `len`, or one
  advance of a `range` loop over it. -/
  | clients
  /-- A send into `client.send` in the body of a `range` loop over `clients`. -/
  | fanOutSend (client : ClientId)
  deriving DecidableEq, Repr

/-- Whether every access to `clients` and every fan-out send in the trace happens while
`mu` is held, `held` telling whether it is held at the start. -/
def lockDiscipline : Bool → List Access → Bool
  | _, [] => true
  | _, Access.lock :: rest => lockDiscipline true rest
  | _, Access.unlock :: rest => lockDiscipline false rest
  | held, Access.clients :: rest => held && lockDiscipline held rest
  | held, Access.fanOutSend _ :: rest => held && lockDiscipline held rest

/-- The accesses of a loop `for client := range clients { select { case client.send <- m: ... } }`:
the loop reads the map when it starts and again after each pass. -/
def fanOutAccesses (clients : List ClientId) : List Access :=
  Access.clients :: clients.flatMap (fun client => [Access.fanOutSend client, Access.clients])

/-- The accesses of `sendPresence` (`server.go:308-354`): lock at 309, the loop of 312, the
fan-out of 331, one fan-out per user at 346, and the deferred unlock of 310. -/
def sendPresenceAccesses (s : Hub) : List Access :=
  Access.lock ::
    ((Access.clients :: s.clients.map (fun _ => Access.clients)) ++
      (fanOutAccesses s.clients ++
        ((presenceUsers s).flatMap (fun _ => fanOutAccesses s.clients) ++ [Access.unlock])))

/-- The accesses of one pass of `readPump` (`server.go:145-189`): the video branch locks at
151 and unlocks at 159; the sync branch locks at 162 and unlocks at 164; the
watch-hours branch locks at 175, unlocks at 177 and then runs the fan-out of 179-185. -/
def readPumpAccesses (s : Hub) (c : ClientId) (msg0 : Message) : List Access :=
  let msg : Message := { msg0 with Sender := (s.heap c).name }
  if msg.type = "video" then [Access.lock, Access.unlock]
  else if msg.type = "sync" then [Access.lock, Access.unlock]
  else if msg.type = "watchHours" then
    Access.lock :: Access.unlock :: fanOutAccesses s.clients
  else []

/-- The accesses of one pass of `handleMessages` (`server.go:246-306`).  Register: lock 250,
insert 251, `len` 252, unlock 253, then `sendPresence`.  Unregister: lock 279, lookup
280, for a client of the set delete 281 and `len` 284, unlock 286, then `sendPresence`.
Broadcast: lock 291, the loop of 292 with a delete at 298 for a full mailbox, unlock 303. -/
def handleMessagesAccesses (s : Hub) : Event → List Access
  | Event.register client =>
    Access.lock :: Access.clients :: Access.clients :: Access.unlock ::
      sendPresenceAccesses (s.addClient client)
  | Event.unregister client =>
    Access.lock :: Access.clients ::
      ((if client ∈ s.clients then [Access.clients, Access.clients] else []) ++
        (Access.unlock ::
          sendPresenceAccesses (if client ∈ s.clients then s.deleteClient client else s)))
  | Event.broadcast _ =>
    Access.lock :: Access.clients ::
      (s.clients.flatMap (fun client =>
          Access.fanOutSend client ::
            ((if s.mailboxFull client then [Access.clients] else []) ++ [Access.clients])) ++
        [Access.unlock])

/-! ## Concrete inputs -/

/-- The state after a client named "alice" connected and was registered. -/
def aliceState : Hub :=
  (handleMessages (newClient init "alice") (Event.register 0)).state

/-- The state after "alice" and then "bob" connected and were registered. -/
def aliceBobState : Hub :=
  (handleMessages (newClient aliceState "bob") (Event.register 1)).state

/-- A chat message. -/
def chatHello : Message :=
  { Message.zero with type := "message", Content := "hello" }

/-- The video message `{type:"video", videoUrl:"x", playbackState:"stop", currentTime:12.5}`. -/
def videoStopX : Message :=
  { Message.zero with type := "video", VideoUrl := "x", PlaybackState := "stop",
                      CurrentTime := Float64.twelveAndHalf }

/-- The message `{type:"sync"}`. -/
def syncRequest : Message :=
  { Message.zero with type := "sync" }

/-- The message `{type:"watchHours", watchHours:3.5}` with a sender field of the client's choosing. -/
def watchHoursReport : Message :=
  { Message.zero with type := "watchHours", Sender := "mallory",
                      WatchHours := Float64.threeAndHalf }

/-- The state after "alice" and "bob" registered and "bob" was unregistered once. -/
def bobGoneState : Hub :=
  (handleMessages aliceBobState (Event.unregister 1)).state

/-- The state `aliceBobState` with 2048 chat messages waiting in the mailbox of "alice". -/
def saturatedState : Hub :=
  aliceBobState.setSend 0 ⟨List.replicate 2048 chatHello, 2048, false⟩

/-- The state after `n` clients named "guest" connected and were registered. -/
def guests : Nat → Hub
  | 0 => init
  | n + 1 => (handleMessages (newClient (guests n) "guest") (Event.register (guests n).next)).state

/-- The state after 2047 clients named "guest" connected and were registered, and their
mailboxes were emptied. -/
def crowd : Hub :=
  { heap := fun d => if d < 2047 then ⟨"guest", ⟨[], 2048, false⟩, false⟩ else init.heap d
    next := 2047
    clients := List.range 2047
    clientData := fun _ => none
    broadcast := []
    sharedVideoState := initialVideoState }

/-- The state `crowd` after `handleConnections` built the client "alice", at address 2047. -/
def fullHouse : Hub :=
  newClient crowd "alice"

/-! ## Lemmas -/

theorem BufOnly.refl (s : Hub) : BufOnly s s :=
  ⟨rfl, rfl, rfl, rfl, rfl, fun _ => ⟨rfl, rfl, rfl, rfl⟩⟩

theorem BufOnly.trans {s t u : Hub} (h1 : BufOnly s t) (h2 : BufOnly t u) : BufOnly s u := by
  obtain ⟨a1, a2, a3, a4, a5, a6⟩ := h1
  obtain ⟨b1, b2, b3, b4, b5, b6⟩ := h2
  refine ⟨b1.trans a1, b2.trans a2, b3.trans a3, b4.trans a4, b5.trans a5, fun d => ?_⟩
  obtain ⟨c1, c2, c3, c4⟩ := a6 d
  obtain ⟨d1, d2, d3, d4⟩ := b6 d
  exact ⟨d1.trans c1, d2.trans c2, d3.trans c3, d4.trans c4⟩

theorem trySend_sent {ch ch1 : Chan} {m : Message} (h : ch.trySend m = TrySend.sent ch1) :
    ch.closed = false ∧ ch.buf.length < ch.cap ∧ ch1 = { ch with buf := ch.buf ++ [m] } := by
  unfold Chan.trySend at h
  split at h
  · cases h
  · split at h
    · rename_i h1 h2
      injection h with h
      exact ⟨by simpa using h1, h2, h.symm⟩
    · cases h

theorem trySend_of_room {ch : Chan} (m : Message) (h1 : ch.closed = false)
    (h2 : ch.buf.length < ch.cap) :
    ch.trySend m = TrySend.sent { ch with buf := ch.buf ++ [m] } := by
  simp [Chan.trySend, h1, h2]

theorem trySend_of_full {ch : Chan} (m : Message) (h1 : ch.closed = false)
    (h2 : ch.cap ≤ ch.buf.length) : ch.trySend m = TrySend.full := by
  simp [Chan.trySend, h1, Nat.not_lt.mpr h2]

theorem bufOnly_setSend (s : Hub) (c : ClientId) (ch : Chan)
    (hcap : ch.cap = (s.heap c).send.cap) (hcl : ch.closed = (s.heap c).send.closed) :
    BufOnly s (s.setSend c ch) := by
  refine ⟨rfl, rfl, rfl, rfl, rfl, fun d => ?_⟩
  by_cases h : d = c
  · subst h; simp [Hub.setSend, hcap, hcl]
  · simp [Hub.setSend, h]

theorem bufOnly_trySend {s : Hub} {c : ClientId} {m : Message} {ch : Chan}
    (h : (s.heap c).send.trySend m = TrySend.sent ch) : BufOnly s (s.setSend c ch) := by
  obtain ⟨_, _, h3⟩ := trySend_sent h
  subst h3
  exact bufOnly_setSend s c _ rfl rfl

theorem trySends_bufOnly (l : List (ClientId × Message)) (s : Hub) :
    BufOnly s (trySends l s).state := by
  induction l generalizing s with
  | nil => exact BufOnly.refl s
  | cons p rest ih =>
    obtain ⟨c, m⟩ := p
    unfold trySends
    split
    · rename_i ch h
      exact (bufOnly_trySend h).trans (ih _)
    · exact ih s
    · exact BufOnly.refl s

theorem msgsFor_cons_self (d : ClientId) (m : Message) (l : List (ClientId × Message)) :
    msgsFor d ((d, m) :: l) = m :: msgsFor d l := by
  simp [msgsFor]

theorem msgsFor_cons_ne {c d : ClientId} (h : c ≠ d) (m : Message)
    (l : List (ClientId × Message)) : msgsFor d ((c, m) :: l) = msgsFor d l := by
  simp [msgsFor, h]

theorem msgsFor_append (d : ClientId) (l1 l2 : List (ClientId × Message)) :
    msgsFor d (l1 ++ l2) = msgsFor d l1 ++ msgsFor d l2 := by
  simp [msgsFor]

/-- A sequence of non-blocking sends to open mailboxes does not panic, and leaves in each
mailbox its old contents followed by as many of the messages addressed to it, in
order, as it had free slots. -/
theorem trySends_open (l : List (ClientId × Message)) (s : Hub)
    (h : ∀ p ∈ l, (s.heap p.1).send.closed = false) :
    (trySends l s).ctl = Ctl.next ∧
    ∀ d, ((trySends l s).state.heap d).send.buf =
      (s.heap d).send.buf ++
        (msgsFor d l).take ((s.heap d).send.cap - (s.heap d).send.buf.length) := by
  induction l generalizing s with
  | nil => simp [trySends, msgsFor]
  | cons p rest ih =>
    obtain ⟨c, m⟩ := p
    have hc : (s.heap c).send.closed = false := h (c, m) (List.mem_cons_self _ _)
    have hrest : ∀ p ∈ rest, (s.heap p.1).send.closed = false :=
      fun p hp => h p (List.mem_cons_of_mem _ hp)
    by_cases hroom : (s.heap c).send.buf.length < (s.heap c).send.cap
    · have hs := trySend_of_room m hc hroom
      have hb := bufOnly_setSend s c { (s.heap c).send with buf := (s.heap c).send.buf ++ [m] } rfl rfl
      have ih1 := ih (s.setSend c { (s.heap c).send with buf := (s.heap c).send.buf ++ [m] })
        (fun p hp => by rw [(hb.2.2.2.2.2 p.1).2.2.2]; exact hrest p hp)
      simp only [trySends, hs]
      refine ⟨ih1.1, fun d => ?_⟩
      rw [ih1.2 d]
      by_cases hd : d = c
      · subst hd
        simp only [Hub.setSend, if_true, msgsFor_cons_self, List.length_append,
          List.length_singleton, List.append_assoc, List.singleton_append]
        obtain ⟨n, hn⟩ : ∃ n, (s.heap d).send.cap - (s.heap d).send.buf.length = n + 1 :=
          ⟨(s.heap d).send.cap - (s.heap d).send.buf.length - 1, by omega⟩
        have hn2 : (s.heap d).send.cap - ((s.heap d).send.buf.length + 1) = n := by omega
        rw [hn, hn2, List.take_succ_cons]
      · have hne : c ≠ d := fun e => hd e.symm
        simp [Hub.setSend, hd, msgsFor_cons_ne hne]
    · have hs := trySend_of_full m hc (Nat.le_of_not_lt hroom)
      have ih1 := ih s hrest
      simp only [trySends, hs]
      refine ⟨ih1.1, fun d => ?_⟩
      rw [ih1.2 d]
      by_cases hd : d = c
      · subst hd
        have : (s.heap d).send.cap - (s.heap d).send.buf.length = 0 := by omega
        simp [this]
      · have hne : c ≠ d := fun e => hd e.symm
        simp [msgsFor_cons_ne hne]

theorem close_open {ch : Chan} (h : ch.closed = false) :
    ch.close = some { ch with closed := true } := by
  simp [Chan.close, h]

theorem broadcastLoop_spec (m : Message) (l : List ClientId) (s : Hub) (hnd : l.Nodup)
    (hopen : ∀ c ∈ l, (s.heap c).send.closed = false) :
    (broadcastLoop m l s).ctl = Ctl.next ∧
    (broadcastLoop m l s).state.next = s.next ∧
    (broadcastLoop m l s).state.clientData = s.clientData ∧
    (broadcastLoop m l s).state.broadcast = s.broadcast ∧
    (broadcastLoop m l s).state.sharedVideoState = s.sharedVideoState ∧
    (broadcastLoop m l s).state.clients =
      s.clients.filter (fun d => decide (¬ (d ∈ l ∧ s.mailboxFull d))) ∧
    ∀ d, (broadcastLoop m l s).state.heap d =
      if d ∈ l then (if s.mailboxFull d then (s.heap d).shut else (s.heap d).enqueue m)
      else s.heap d := by
  induction l generalizing s with
  | nil => simp [broadcastLoop]
  | cons c rest ih =>
    have hc : (s.heap c).send.closed = false := hopen c (List.mem_cons_self _ _)
    have hcr : c ∉ rest := (List.nodup_cons.mp hnd).1
    have hndr : rest.Nodup := (List.nodup_cons.mp hnd).2
    by_cases hroom : (s.heap c).send.buf.length < (s.heap c).send.cap
    · have hs := trySend_of_room m hc hroom
      have hnf : ¬ s.mailboxFull c := by unfold Hub.mailboxFull; omega
      have hheap : ∀ d, d ≠ c →
          (s.setSend c { (s.heap c).send with buf := (s.heap c).send.buf ++ [m] }).heap d
            = s.heap d := by
        intro d hd; simp [Hub.setSend, hd]
      have ih1 := ih (s.setSend c { (s.heap c).send with buf := (s.heap c).send.buf ++ [m] }) hndr
        (fun d hd => by
          have hdc : d ≠ c := fun e => hcr (e ▸ hd)
          rw [hheap d hdc]; exact hopen d (List.mem_cons_of_mem _ hd))
      simp only [broadcastLoop, hs]
      obtain ⟨i1, i2, i3, i4, i5, i6, i7⟩ := ih1
      refine ⟨i1, i2, i3, i4, i5, ?_, fun d => ?_⟩
      · rw [i6]
        apply List.filter_congr
        intro d _
        by_cases hd : d = c
        · subst hd; simp [hcr, hnf]
        · simp [Hub.mailboxFull, hheap d hd, hd]
      · rw [i7 d]
        by_cases hd : d = c
        · subst hd
          simp [hcr, hnf, Hub.setSend, Client.enqueue]
        · simp [Hub.mailboxFull, hheap d hd, hd]
    · have hfull : s.mailboxFull c := by unfold Hub.mailboxFull; omega
      have hs := trySend_of_full m hc hfull
      have hcl := close_open hc
      have hheap : ∀ d, d ≠ c →
          (((s.deleteClient c).setSend c { (s.heap c).send with closed := true }).closeConn c).heap d
            = s.heap d := by
        intro d hd; simp [Hub.setSend, Hub.closeConn, Hub.deleteClient, hd]
      have ih1 := ih (((s.deleteClient c).setSend c { (s.heap c).send with closed := true }).closeConn c)
        hndr (fun d hd => by
          have hdc : d ≠ c := fun e => hcr (e ▸ hd)
          rw [hheap d hdc]; exact hopen d (List.mem_cons_of_mem _ hd))
      simp only [broadcastLoop, hs, hcl]
      obtain ⟨i1, i2, i3, i4, i5, i6, i7⟩ := ih1
      refine ⟨i1, i2, i3, i4, i5, ?_, fun d => ?_⟩
      · rw [i6]
        show List.filter _ (List.filter _ s.clients) = _
        rw [List.filter_filter]
        apply List.filter_congr
        intro d _
        by_cases hd : d = c
        · subst hd; simp [hfull]
        · simp [Hub.mailboxFull, hheap d hd, hd]
      · rw [i7 d]
        by_cases hd : d = c
        · subst hd
          simp [hcr, hfull, Hub.setSend, Hub.closeConn, Hub.deleteClient, Client.shut]
        · simp [Hub.mailboxFull, hheap d hd, hd]

theorem client_eq {a b : Client} (h1 : a.name = b.name) (h2 : a.connClosed = b.connClosed)
    (h3 : a.send.buf = b.send.buf) (h4 : a.send.cap = b.send.cap)
    (h5 : a.send.closed = b.send.closed) : a = b := by
  obtain ⟨an, ⟨ab, ac, ad⟩, ae⟩ := a
  obtain ⟨bn, ⟨bb, bc, bd⟩, be⟩ := b
  simp only at h1 h2 h3 h4 h5
  subst h1 h2 h3 h4 h5
  rfl

theorem msgsFor_map_not_mem {d : ClientId} {l : List ClientId} (h : d ∉ l) (m : Message) :
    msgsFor d (l.map (fun c => (c, m))) = [] := by
  induction l with
  | nil => rfl
  | cons c rest ih =>
    have hne : c ≠ d := fun e => h (e ▸ List.mem_cons_self _ _)
    rw [List.map_cons, msgsFor_cons_ne hne]
    exact ih (fun hm => h (List.mem_cons_of_mem _ hm))

theorem msgsFor_map_mem {d : ClientId} {l : List ClientId} (hnd : l.Nodup) (h : d ∈ l)
    (m : Message) : msgsFor d (l.map (fun c => (c, m))) = [m] := by
  induction l with
  | nil => cases h
  | cons c rest ih =>
    obtain ⟨hc, hr⟩ := List.nodup_cons.mp hnd
    by_cases hcd : c = d
    · subst hcd
      rw [List.map_cons, msgsFor_cons_self, msgsFor_map_not_mem hc]
    · rw [List.map_cons, msgsFor_cons_ne hcd]
      rcases List.mem_cons.mp h with e | hm
      · exact absurd e.symm hcd
      · exact ih hr hm

theorem msgsFor_flatMap (d : ClientId) (us : List Message)
    (f : Message → List (ClientId × Message)) :
    msgsFor d (us.flatMap f) = us.flatMap (fun u => msgsFor d (f u)) := by
  induction us with
  | nil => rfl
  | cons u rest ih => simp only [List.flatMap_cons, msgsFor_append, ih]

theorem msgsFor_presenceSends_mem {s : Hub} {d : ClientId} (hnd : s.clients.Nodup)
    (h : d ∈ s.clients) : msgsFor d (presenceSends s) = presenceBatch s := by
  unfold presenceSends presenceBatch
  rw [msgsFor_append, msgsFor_map_mem hnd h, msgsFor_flatMap]
  simp only [msgsFor_map_mem hnd h, List.singleton_append, List.cons.injEq, true_and]
  induction presenceUsers s with
  | nil => rfl
  | cons u rest ih => simp [List.flatMap_cons, ih]

theorem msgsFor_presenceSends_not_mem {s : Hub} {d : ClientId} (h : d ∉ s.clients) :
    msgsFor d (presenceSends s) = [] := by
  unfold presenceSends
  rw [msgsFor_append, msgsFor_map_not_mem h, msgsFor_flatMap]
  simp only [msgsFor_map_not_mem h, List.nil_append]
  induction presenceUsers s with
  | nil => rfl
  | cons u rest ih => simp [List.flatMap_cons, ih]

theorem presenceSends_target {s : Hub} {p : ClientId × Message} (h : p ∈ presenceSends s) :
    p.1 ∈ s.clients := by
  unfold presenceSends at h
  rcases List.mem_append.mp h with h1 | h1
  · obtain ⟨c, hc, rfl⟩ := List.mem_map.mp h1
    exact hc
  · obtain ⟨u, _, hu⟩ := List.mem_flatMap.mp h1
    obtain ⟨c, hc, rfl⟩ := List.mem_map.mp hu
    exact hc

/-- What `sendPresence` does in a sound state: no panic, nothing but mailbox contents
changes, and every client of the set gets the batch as far as its mailbox has room. -/
theorem sendPresence_spec (s : Hub) (hwf : WF s) :
    (sendPresence s).ctl = Ctl.next ∧ BufOnly s (sendPresence s).state ∧
    (∀ d ∈ s.clients, ((sendPresence s).state.heap d).send.buf =
      (s.heap d).send.buf ++
        (presenceBatch s).take ((s.heap d).send.cap - (s.heap d).send.buf.length)) ∧
    (∀ d, d ∉ s.clients → (sendPresence s).state.heap d = s.heap d) := by
  have hopen : ∀ p ∈ presenceSends s, (s.heap p.1).send.closed = false :=
    fun p hp => hwf.2 p.1 (presenceSends_target hp)
  have h1 := trySends_open (presenceSends s) s hopen
  have hb := trySends_bufOnly (presenceSends s) s
  refine ⟨h1.1, hb, fun d hd => ?_, fun d hd => ?_⟩
  · have := h1.2 d
    rw [msgsFor_presenceSends_mem hwf.1 hd] at this
    exact this
  · have hbuf := h1.2 d
    rw [msgsFor_presenceSends_not_mem hd] at hbuf
    obtain ⟨_, _, _, _, _, hf⟩ := hb
    obtain ⟨f1, f2, f3, f4⟩ := hf d
    simp only [List.take_nil, List.append_nil] at hbuf
    exact client_eq f1 f2 hbuf f3 f4

theorem inv_wf {s : Hub} (hi : Inv s) : WF s :=
  ⟨hi.1, fun c hc => (hi.2.1 c hc).2⟩

theorem inv_of_same {s t : Hub} (h1 : t.next = s.next) (h2 : t.clients = s.clients)
    (h3 : ∀ d, (t.heap d).send.closed = (s.heap d).send.closed) (hi : Inv s) : Inv t := by
  obtain ⟨a, b, c⟩ := hi
  refine ⟨h2 ▸ a, fun d hd => ?_, fun d hd hn => ?_⟩
  · rw [h2] at hd; rw [h1, h3]; exact b d hd
  · rw [h1] at hd; rw [h2] at hn; rw [h3]; exact c d hd hn

theorem inv_bufOnly {s t : Hub} (hb : BufOnly s t) (hi : Inv s) : Inv t :=
  inv_of_same hb.1 hb.2.1 (fun d => (hb.2.2.2.2.2 d).2.2.2) hi

theorem sendInitialStateLoop_idle_bufOnly (c : ClientId) (n : Nat) (s : Hub) :
    BufOnly s (sendInitialStateLoop c (List.replicate n []) s).state := by
  induction n with
  | zero => exact BufOnly.refl s
  | succ n ih =>
    rw [List.replicate_succ]
    cases hts : (s.heap c).send.trySend s.sharedVideoState with
    | sent ch =>
      simp only [sendInitialStateLoop, snapshotSelect, hts]
      exact bufOnly_trySend hts
    | full =>
      simp only [sendInitialStateLoop, snapshotSelect, hts]
      exact ih
    | closedPanic =>
      simp only [sendInitialStateLoop, snapshotSelect, hts]
      exact BufOnly.refl s

theorem sendInitialState_idle_bufOnly (s : Hub) (c : ClientId) :
    BufOnly s (sendInitialState [] [] [] s c).state :=
  sendInitialStateLoop_idle_bufOnly c 3 s

/-- What one pass of `readPump` leaves untouched, whatever the message. -/
theorem readPump_frame (s : Hub) (c : ClientId) (msg : Message) :
    (readPump s c msg).state.next = s.next ∧
    (readPump s c msg).state.clients = s.clients ∧
    (readPump s c msg).state.broadcast = s.broadcast ∧
    ∀ d, ((readPump s c msg).state.heap d).name = (s.heap d).name ∧
      ((readPump s c msg).state.heap d).connClosed = (s.heap d).connClosed ∧
      ((readPump s c msg).state.heap d).send.cap = (s.heap d).send.cap ∧
      ((readPump s c msg).state.heap d).send.closed = (s.heap d).send.closed := by
  unfold readPump
  simp only
  split
  · exact ⟨rfl, rfl, rfl, fun _ => ⟨rfl, rfl, rfl, rfl⟩⟩
  · split
    · split
      · rename_i ch h
        obtain ⟨b1, b2, _, b4, _, b6⟩ := bufOnly_trySend h
        exact ⟨b1, b2, b4, b6⟩
      · exact ⟨rfl, rfl, rfl, fun _ => ⟨rfl, rfl, rfl, rfl⟩⟩
      · exact ⟨rfl, rfl, rfl, fun _ => ⟨rfl, rfl, rfl, rfl⟩⟩
    · split
      · obtain ⟨b1, b2, _, b4, _, b6⟩ := trySends_bufOnly
          (s.clients.map (fun client => (client, { msg with Sender := (s.heap c).name })))
          { s with clientData := fun k =>
              if k = (s.heap c).name then some msg.WatchHours else s.clientData k }
        exact ⟨b1, b2, b4, b6⟩
      · exact ⟨rfl, rfl, rfl, fun _ => ⟨rfl, rfl, rfl, rfl⟩⟩

/-- The shared playback state after one pass of `readPump`: unchanged unless the message
is a video message, in which case it is the message with the sender stamped and
`"stop"` turned into `"pause"`. -/
theorem readPump_sharedVideoState (s : Hub) (c : ClientId) (msg : Message) :
    (readPump s c msg).state.sharedVideoState =
      if msg.type = "video" then
        { msg with
          Sender := (s.heap c).name
          PlaybackState := if msg.PlaybackState = "stop" then "pause" else msg.PlaybackState }
      else s.sharedVideoState := by
  unfold readPump
  simp only
  split
  · split <;> rfl
  · split
    · split
      · rename_i ch h
        exact (bufOnly_trySend h).2.2.2.2.1
      · rfl
      · rfl
    · split
      · exact (trySends_bufOnly _ _).2.2.2.2.1
      · rfl

theorem inv_register (s : Hub) (username : String) (hi : Inv s) :
    Inv ((newClient s username).addClient s.next) := by
  obtain ⟨a, b, c⟩ := hi
  have hfresh : s.next ∉ s.clients := fun h => Nat.lt_irrefl _ (b _ h).1
  have hcl : ((newClient s username).addClient s.next).clients = s.clients ++ [s.next] := by
    simp [Hub.addClient, newClient, hfresh]
  refine ⟨?_, fun d hd => ?_, fun d hd hn => ?_⟩
  · rw [hcl]
    exact List.nodup_append.mpr ⟨a, List.nodup_singleton _, by
      intro x hx hy
      rw [List.mem_singleton] at hy
      exact hfresh (hy ▸ hx)⟩
  · rw [hcl] at hd
    rcases List.mem_append.mp hd with h | h
    · have hlt := (b d h).1
      have hne : d ≠ s.next := Nat.ne_of_lt hlt
      refine ⟨Nat.lt_succ_of_lt hlt, ?_⟩
      simpa [Hub.addClient, newClient, hne] using (b d h).2
    · rw [List.mem_singleton] at h
      subst h
      exact ⟨Nat.lt_succ_self _, by simp [Hub.addClient, newClient]⟩
  · rw [hcl] at hn
    have hd1 : d < s.next + 1 := hd
    have hne : d ≠ s.next := fun e => hn (by simp [e])
    have hlt : d < s.next := Nat.lt_of_le_of_ne (Nat.lt_succ_iff.mp hd1) hne
    have hnm : d ∉ s.clients := fun h => hn (List.mem_append_left _ h)
    simpa [Hub.addClient, newClient, hne] using c d hlt hnm

theorem inv_remove (s : Hub) (c : ClientId) (hi : Inv s) (hc : c ∈ s.clients) :
    Inv (((s.deleteClient c).setSend c { (s.heap c).send with closed := true }).closeConn c) := by
  obtain ⟨a, b, e⟩ := hi
  refine ⟨a.filter _, fun d hd => ?_, fun d hd hn => ?_⟩
  · have hd1 : d ∈ s.clients.filter (fun d => decide (d ≠ c)) := hd
    obtain ⟨h1, h2⟩ := List.mem_filter.mp hd1
    have hne : d ≠ c := by simpa using h2
    have := b d h1
    simpa [Hub.closeConn, Hub.setSend, Hub.deleteClient, hne] using this
  · have hn1 : d ∉ s.clients.filter (fun d => decide (d ≠ c)) := hn
    by_cases hdc : d = c
    · subst hdc
      simp [Hub.closeConn, Hub.setSend, Hub.deleteClient]
    · have hnm : d ∉ s.clients := fun h => hn1 (List.mem_filter.mpr ⟨h, by simpa using hdc⟩)
      have := e d hd hnm
      simpa [Hub.closeConn, Hub.setSend, Hub.deleteClient, hdc] using this

theorem inv_broadcast (s : Hub) (msg : Message) (hi : Inv s) :
    Inv (broadcastLoop msg s.clients s).state := by
  obtain ⟨_, h2, _, _, _, h6, h7⟩ := broadcastLoop_spec msg s.clients s hi.1 (inv_wf hi).2
  obtain ⟨a, b, e⟩ := hi
  refine ⟨h6 ▸ a.filter _, fun d hd => ?_, fun d hd hn => ?_⟩
  · rw [h6] at hd
    obtain ⟨m1, m2⟩ := List.mem_filter.mp hd
    have hnf : ¬ s.mailboxFull d := by simpa [m1] using m2
    rw [h2, h7 d]
    simpa [m1, hnf, Client.enqueue] using b d m1
  · rw [h2] at hd
    rw [h6] at hn
    rw [h7 d]
    by_cases hm : d ∈ s.clients
    · have hf : s.mailboxFull d := by
        by_contra hnf
        exact hn (List.mem_filter.mpr ⟨hm, by simp [hnf]⟩)
      simp [hm, hf, Client.shut]
    · simpa [hm] using e d hd hm

/-- Every step keeps the membership invariant. -/
theorem step_inv {s t : Hub} (st : Step s t) (hi : Inv s) : Inv t := by
  cases st with
  | register username =>
    exact inv_bufOnly (trySends_bufOnly _ _) (inv_register s username hi)
  | initialState c => exact inv_bufOnly (sendInitialState_idle_bufOnly s c) hi
  | unregister c =>
    by_cases hc : c ∈ s.clients
    · have hopen := (hi.2.1 c hc).2
      simp only [handleMessages, hc, if_true, close_open hopen]
      exact inv_bufOnly (trySends_bufOnly _ _) (inv_remove s c hi hc)
    · simp only [handleMessages, hc, if_false]
      exact inv_bufOnly (trySends_bufOnly _ _) hi
  | dequeue => exact inv_of_same rfl rfl (fun _ => rfl) hi
  | broadcast msg => exact inv_broadcast s msg hi
  | read c msg =>
    obtain ⟨f1, f2, _, f4⟩ := readPump_frame s c msg
    exact inv_of_same f1 f2 (fun d => (f4 d).2.2.2) hi
  | forward _ msg h =>
    unfold forwardBroadcast at h
    split at h
    · injection h with h
      subst h
      exact inv_of_same rfl rfl (fun _ => rfl) hi
    · cases h
  | write c => exact inv_bufOnly (bufOnly_setSend s c _ rfl rfl) hi
  | reorder l h =>
    obtain ⟨a, b, e⟩ := hi
    exact ⟨h.nodup_iff.mpr a, fun d hd => b d (h.mem_iff.mp hd),
      fun d hd hn => e d hd (fun hm => hn (h.mem_iff.mpr hm))⟩
  | buffers _ h => exact inv_bufOnly h hi

/-- Every step keeps the shared playback state off `"stop"`. -/
theorem step_noStop {s t : Hub} (st : Step s t) (hi : Inv s)
    (hs : s.sharedVideoState.PlaybackState ≠ "stop") :
    t.sharedVideoState.PlaybackState ≠ "stop" := by
  cases st with
  | register username =>
    have := (trySends_bufOnly (presenceSends ((newClient s username).addClient s.next))
      ((newClient s username).addClient s.next)).2.2.2.2.1
    show (sendPresence _).state.sharedVideoState.PlaybackState ≠ "stop"
    unfold sendPresence
    rw [this]
    exact hs
  | initialState c =>
    rw [(sendInitialState_idle_bufOnly s c).2.2.2.2.1]
    exact hs
  | unregister c =>
    by_cases hc : c ∈ s.clients
    · have hopen := (hi.2.1 c hc).2
      simp only [handleMessages, hc, if_true, close_open hopen]
      unfold sendPresence
      rw [(trySends_bufOnly _ _).2.2.2.2.1]
      exact hs
    · simp only [handleMessages, hc, if_false]
      unfold sendPresence
      rw [(trySends_bufOnly _ _).2.2.2.2.1]
      exact hs
  | dequeue => exact hs
  | broadcast msg =>
    obtain ⟨_, _, _, _, h5, _⟩ := broadcastLoop_spec msg s.clients s hi.1 (inv_wf hi).2
    show (broadcastLoop msg s.clients s).state.sharedVideoState.PlaybackState ≠ "stop"
    rw [h5]
    exact hs
  | read c msg =>
    rw [readPump_sharedVideoState]
    split
    · show (if msg.PlaybackState = "stop" then "pause" else msg.PlaybackState) ≠ "stop"
      split
      · decide
      · assumption
    · exact hs
  | forward _ msg h =>
    unfold forwardBroadcast at h
    split at h
    · injection h with h
      subst h
      exact hs
    · cases h
  | write c => exact hs
  | reorder l h => exact hs
  | buffers _ h =>
    rw [h.2.2.2.2.1]
    exact hs

theorem init_inv : Inv init := by
  refine ⟨List.nodup_nil, fun c h => ?_, fun c h => absurd h (Nat.not_lt_zero c)⟩
  exact absurd h (List.not_mem_nil c)

/-- Every reachable state satisfies the membership invariant and stores no `"stop"`. -/
theorem reachable_inv {s : Hub} (h : Reachable s) :
    Inv s ∧ s.sharedVideoState.PlaybackState ≠ "stop" := by
  induction h with
  | init => exact ⟨init_inv, by decide⟩
  | step _ st ih => exact ⟨step_inv st ih.1, step_noStop st ih.1 ih.2⟩

/-- A fan-out of one message over distinct clients with open mailboxes: no panic, and
exactly the clients with a free slot get the message. -/
theorem fanOut_spec (m : Message) (l : List ClientId) (s : Hub) (hnd : l.Nodup)
    (hopen : ∀ c ∈ l, (s.heap c).send.closed = false) :
    (trySends (l.map (fun c => (c, m))) s).ctl = Ctl.next ∧
    ∀ d, (trySends (l.map (fun c => (c, m))) s).state.heap d =
      if d ∈ l ∧ ¬ s.mailboxFull d then (s.heap d).enqueue m else s.heap d := by
  have h1 := trySends_open (l.map (fun c => (c, m))) s (by
    intro p hp
    obtain ⟨c, hc, rfl⟩ := List.mem_map.mp hp
    exact hopen c hc)
  obtain ⟨_, _, _, _, _, hf⟩ := trySends_bufOnly (l.map (fun c => (c, m))) s
  refine ⟨h1.1, fun d => ?_⟩
  obtain ⟨f1, f2, f3, f4⟩ := hf d
  have hbuf := h1.2 d
  by_cases hd : d ∈ l
  · rw [msgsFor_map_mem hnd hd] at hbuf
    by_cases hfull : s.mailboxFull d
    · have h0 : (s.heap d).send.cap - (s.heap d).send.buf.length = 0 := by
        unfold Hub.mailboxFull at hfull; omega
      rw [h0] at hbuf
      simp only [List.take_zero, List.append_nil] at hbuf
      simp only [hd, hfull, not_true_eq_false, and_false, if_false]
      exact client_eq f1 f2 hbuf f3 f4
    · obtain ⟨n, hn⟩ : ∃ n, (s.heap d).send.cap - (s.heap d).send.buf.length = n + 1 :=
        ⟨(s.heap d).send.cap - (s.heap d).send.buf.length - 1, by
          unfold Hub.mailboxFull at hfull; omega⟩
      rw [hn] at hbuf
      simp only [List.take_succ_cons, List.take_nil] at hbuf
      simp only [hd, hfull, not_false_eq_true, and_self, if_true]
      exact client_eq f1 f2 hbuf f3 f4
  · rw [msgsFor_map_not_mem hd] at hbuf
    simp only [List.take_nil, List.append_nil] at hbuf
    simp only [hd, false_and, if_false]
    exact client_eq f1 f2 hbuf f3 f4

theorem wf_bufOnly {s t : Hub} (hb : BufOnly s t) (hwf : WF s) : WF t := by
  obtain ⟨_, b2, _, _, _, b6⟩ := hb
  refine ⟨b2 ▸ hwf.1, fun c hc => ?_⟩
  rw [b2] at hc
  rw [(b6 c).2.2.2]
  exact hwf.2 c hc

theorem wf_remove (s : Hub) (c : ClientId) (hwf : WF s) :
    WF (((s.deleteClient c).setSend c { (s.heap c).send with closed := true }).closeConn c) := by
  refine ⟨hwf.1.filter _, fun d hd => ?_⟩
  have hd1 : d ∈ s.clients.filter (fun d => decide (d ≠ c)) := hd
  obtain ⟨h1, h2⟩ := List.mem_filter.mp hd1
  have hne : d ≠ c := by simpa using h2
  simpa [Hub.closeConn, Hub.setSend, Hub.deleteClient, hne] using hwf.2 d h1

/-- The unregister case in a sound state, for a client of the set: the close does not
panic and the case is `sendPresence` on the state with the client removed and shut. -/
theorem unregister_mem (s : Hub) (c : ClientId) (hwf : WF s) (hc : c ∈ s.clients) :
    handleMessages s (Event.unregister c) =
      sendPresence (((s.deleteClient c).setSend c { (s.heap c).send with closed := true }).closeConn c) := by
  simp only [handleMessages, hc, if_true, close_open (hwf.2 c hc)]

theorem unregister_not_mem (s : Hub) (c : ClientId) (hc : c ∉ s.clients) :
    handleMessages s (Event.unregister c) = sendPresence s := by
  simp only [handleMessages, hc, if_false]

theorem wf_addClient (s : Hub) (c : ClientId) (hwf : WF s)
    (hopen : (s.heap c).send.closed = false) : WF (s.addClient c) := by
  by_cases hc : c ∈ s.clients
  · have : s.addClient c = s := by simp [Hub.addClient, hc]
    rw [this]; exact hwf
  · have hcl : (s.addClient c).clients = s.clients ++ [c] := by simp [Hub.addClient, hc]
    refine ⟨?_, fun d hd => ?_⟩
    · rw [hcl]
      exact List.nodup_append.mpr ⟨hwf.1, List.nodup_singleton _, by
        intro x hx hy
        rw [List.mem_singleton] at hy
        exact hc (hy ▸ hx)⟩
    · rw [hcl] at hd
      rcases List.mem_append.mp hd with h | h
      · exact hwf.2 d h
      · rw [List.mem_singleton] at h
        subst h
        exact hopen

theorem mem_addClient (s : Hub) (c : ClientId) : c ∈ (s.addClient c).clients := by
  by_cases hc : c ∈ s.clients <;> simp [Hub.addClient, hc]

theorem presenceBatch_length (s : Hub) : (presenceBatch s).length = s.clients.length + 1 := by
  simp [presenceBatch, presenceUsers]

theorem not_mem_presenceBatch (s : Hub) (m : Message) (h : m.type = "video") :
    m ∉ presenceBatch s := by
  intro hm
  rcases List.mem_cons.mp hm with e | hm
  · have := congrArg Message.type e
    rw [h] at this
    revert this
    simp [presenceMsg]
  · obtain ⟨u, _, e⟩ := List.mem_map.mp hm
    have := congrArg Message.type e
    rw [h] at this
    revert this
    simp [watchHoursMsg]

theorem snapshotSelect_room (c : ClientId) (v : Message) (w : List (Hub → Hub)) (t : Hub)
    (ho : (t.heap c).send.closed = false)
    (hr : (t.heap c).send.buf.length < (t.heap c).send.cap) :
    snapshotSelect c v w t =
      Select.sent (t.setSend c { (t.heap c).send with buf := (t.heap c).send.buf ++ [v] }) := by
  cases w <;> simp only [snapshotSelect, trySend_of_room _ ho hr]

/-- The goroutine in a state where the mailbox is open and has a free slot: its first
`select` sends at once, whatever the other tasks would do during the waits. -/
theorem sendInitialState_room (w1 w2 w3 : List (Hub → Hub)) (t : Hub) (c : ClientId)
    (ho : (t.heap c).send.closed = false)
    (hr : (t.heap c).send.buf.length < (t.heap c).send.cap) :
    sendInitialState w1 w2 w3 t c =
      ⟨t.setSend c { (t.heap c).send with buf := (t.heap c).send.buf ++ [t.sharedVideoState] },
        Ctl.next⟩ := by
  simp only [sendInitialState, sendInitialStateLoop, snapshotSelect_room c _ w1 t ho hr]

/-- The goroutine in a state where the mailbox is open and full, when no other task does
anything during the three waits: the three passes end on the timer and the goroutine
goes on to `unregister <- c`. -/
theorem sendInitialState_stalled (t : Hub) (c : ClientId)
    (ho : (t.heap c).send.closed = false)
    (hf : (t.heap c).send.cap ≤ (t.heap c).send.buf.length) :
    sendInitialState [] [] [] t c = ⟨t, Ctl.unregister⟩ := by
  simp only [sendInitialState, sendInitialStateLoop, snapshotSelect, trySend_of_full _ ho hf]

/-- The goroutine in a state where the mailbox is open and exactly full, when `writePump`
takes a message during the first wait: the waiting send goes through. -/
theorem sendInitialState_after_recv (w1 w2 w3 : List (Hub → Hub)) (t : Hub) (c : ClientId)
    (ho : (t.heap c).send.closed = false)
    (hf : (t.heap c).send.buf.length = (t.heap c).send.cap)
    (hpos : 0 < (t.heap c).send.cap) :
    (sendInitialState ((fun u => recvMailbox u c) :: w1) w2 w3 t c).ctl = Ctl.next ∧
    ((sendInitialState ((fun u => recvMailbox u c) :: w1) w2 w3 t c).state.heap c).send.buf =
      (t.heap c).send.buf.tail ++ [t.sharedVideoState] := by
  have hfull : (t.heap c).send.cap ≤ (t.heap c).send.buf.length := Nat.le_of_eq hf.symm
  have ho1 : ((recvMailbox t c).heap c).send.closed = false := by
    simp [recvMailbox, Hub.setSend, ho]
  have hbuf1 : ((recvMailbox t c).heap c).send.buf = (t.heap c).send.buf.tail := by
    simp [recvMailbox, Hub.setSend]
  have hcap1 : ((recvMailbox t c).heap c).send.cap = (t.heap c).send.cap := by
    simp [recvMailbox, Hub.setSend]
  have hr1 : ((recvMailbox t c).heap c).send.buf.length < ((recvMailbox t c).heap c).send.cap := by
    rw [hbuf1, hcap1, List.length_tail]
    omega
  have hsel : snapshotSelect c t.sharedVideoState ((fun u => recvMailbox u c) :: w1) t =
      Select.sent ((recvMailbox t c).setSend c
        { ((recvMailbox t c).heap c).send with
          buf := ((recvMailbox t c).heap c).send.buf ++ [t.sharedVideoState] }) := by
    rw [snapshotSelect, trySend_of_full _ ho hfull]
    exact snapshotSelect_room c _ w1 (recvMailbox t c) ho1 hr1
  simp only [sendInitialState, sendInitialStateLoop, hsel]
  refine ⟨trivial, ?_⟩
  simp [Hub.setSend, hbuf1]

/-- The register case in a sound state, for a session with an open mailbox: no panic,
nothing but mailbox contents changes after the insertion, and the mailbox of the
session holds its old contents and the presence batch as far as it had room. -/
theorem register_spec (s : Hub) (c : ClientId) (hwf : WF s)
    (hopen : (s.heap c).send.closed = false) :
    (handleMessages s (Event.register c)).ctl = Ctl.next ∧
    BufOnly (s.addClient c) (handleMessages s (Event.register c)).state ∧
    ((handleMessages s (Event.register c)).state.heap c).send.buf =
      (s.heap c).send.buf ++
        (presenceBatch (s.addClient c)).take ((s.heap c).send.cap - (s.heap c).send.buf.length) := by
  obtain ⟨p1, p2, p3, _⟩ := sendPresence_spec (s.addClient c) (wf_addClient s c hwf hopen)
  exact ⟨p1, p2, p3 c (mem_addClient s c)⟩

/-- The register case followed by the goroutine, when the presence batch fills the mailbox
of the new session and no other task does anything during the three waits: the
goroutine goes on to `unregister <- c` and the mailbox holds its old contents and the
part of the presence batch that fitted. -/
theorem register_then_stalled (s : Hub) (c : ClientId) (hwf : WF s)
    (hopen : (s.heap c).send.closed = false)
    (hfill : (s.heap c).send.cap ≤ (s.heap c).send.buf.length + (s.addClient c).clients.length + 1) :
    (sendInitialState [] [] [] (handleMessages s (Event.register c)).state c).ctl
      = Ctl.unregister ∧
    ((sendInitialState [] [] [] (handleMessages s (Event.register c)).state c).state.heap c).send.buf =
      (s.heap c).send.buf ++
        (presenceBatch (s.addClient c)).take ((s.heap c).send.cap - (s.heap c).send.buf.length) := by
  obtain ⟨_, p2, p3⟩ := register_spec s c hwf hopen
  have hsame : (s.addClient c).heap c = s.heap c := rfl
  have ho1 : ((handleMessages s (Event.register c)).state.heap c).send.closed = false := by
    rw [(p2.2.2.2.2.2 c).2.2.2]; exact hopen
  have hf1 : ((handleMessages s (Event.register c)).state.heap c).send.cap
      ≤ ((handleMessages s (Event.register c)).state.heap c).send.buf.length := by
    rw [(p2.2.2.2.2.2 c).2.2.1, p3, List.length_append, List.length_take, presenceBatch_length,
      hsame]
    omega
  rw [sendInitialState_stalled _ c ho1 hf1]
  exact ⟨rfl, p3⟩

theorem readPump_sync (s : Hub) (c : ClientId) (msg : Message) (h : msg.type = "sync") :
    readPump s c msg =
      match (s.heap c).send.trySend s.sharedVideoState with
      | TrySend.sent ch => ⟨s.setSend c ch, Ctl.next⟩
      | TrySend.full => ⟨s, Ctl.unregister⟩
      | TrySend.closedPanic => ⟨s, Ctl.panic⟩ := by
  have hnv : ¬ (msg.type = "video") := by rw [h]; decide
  unfold readPump
  simp only
  rw [if_neg hnv, if_pos h]

theorem readPump_sync_room (s : Hub) (c : ClientId) (msg : Message) (h : msg.type = "sync")
    (ho : (s.heap c).send.closed = false) (hr : ¬ s.mailboxFull c) :
    readPump s c msg =
      ⟨s.setSend c { (s.heap c).send with buf := (s.heap c).send.buf ++ [s.sharedVideoState] },
        Ctl.next⟩ := by
  have hlt : (s.heap c).send.buf.length < (s.heap c).send.cap := by
    unfold Hub.mailboxFull at hr; omega
  rw [readPump_sync s c msg h, trySend_of_room _ ho hlt]

theorem readPump_sync_full (s : Hub) (c : ClientId) (msg : Message) (h : msg.type = "sync")
    (ho : (s.heap c).send.closed = false) (hf : s.mailboxFull c) :
    readPump s c msg = ⟨s, Ctl.unregister⟩ := by
  rw [readPump_sync s c msg h, trySend_of_full _ ho hf]

theorem readPump_sync_closed (s : Hub) (c : ClientId) (msg : Message) (h : msg.type = "sync")
    (hc : (s.heap c).send.closed = true) :
    readPump s c msg = ⟨s, Ctl.panic⟩ := by
  rw [readPump_sync s c msg h]
  simp [Chan.trySend, hc]

/-- Every step keeps the shared playback state a video message. -/
theorem step_video {s t : Hub} (st : Step s t) (hi : Inv s)
    (hs : s.sharedVideoState.type = "video") : t.sharedVideoState.type = "video" := by
  cases st with
  | register username =>
    show (sendPresence _).state.sharedVideoState.type = "video"
    unfold sendPresence
    rw [(trySends_bufOnly _ _).2.2.2.2.1]
    exact hs
  | initialState c =>
    rw [(sendInitialState_idle_bufOnly s c).2.2.2.2.1]
    exact hs
  | unregister c =>
    by_cases hc : c ∈ s.clients
    · rw [unregister_mem s c (inv_wf hi) hc]
      unfold sendPresence
      rw [(trySends_bufOnly _ _).2.2.2.2.1]
      exact hs
    · rw [unregister_not_mem s c hc]
      unfold sendPresence
      rw [(trySends_bufOnly _ _).2.2.2.2.1]
      exact hs
  | dequeue => exact hs
  | broadcast msg =>
    obtain ⟨_, _, _, _, h5, _⟩ := broadcastLoop_spec msg s.clients s hi.1 (inv_wf hi).2
    show (broadcastLoop msg s.clients s).state.sharedVideoState.type = "video"
    rw [h5]
    exact hs
  | read c msg =>
    rw [readPump_sharedVideoState]
    split
    · assumption
    · exact hs
  | forward _ msg h =>
    unfold forwardBroadcast at h
    split at h
    · injection h with h
      subst h
      exact hs
    · cases h
  | write c => exact hs
  | reorder l h => exact hs
  | buffers _ h =>
    rw [h.2.2.2.2.1]
    exact hs

/-- In every reachable state the shared playback state is a video message. -/
theorem reachable_video {s : Hub} (h : Reachable s) : s.sharedVideoState.type = "video" := by
  induction h with
  | init => rfl
  | @step s t hr st ih => exact step_video st (reachable_inv hr).1 ih

/-- While `mu` is held, a stretch of the trace without lock or unlock passes the
discipline and leaves `mu` held. -/
theorem lockDiscipline_held_append (l r : List Access)
    (h : ∀ a ∈ l, a ≠ Access.lock ∧ a ≠ Access.unlock) :
    lockDiscipline true (l ++ r) = lockDiscipline true r := by
  induction l with
  | nil => rfl
  | cons a rest ih =>
    have ha := h a (List.mem_cons_self _ _)
    have hr := ih (fun b hb => h b (List.mem_cons_of_mem _ hb))
    cases a with
    | lock => exact absurd rfl ha.1
    | unlock => exact absurd rfl ha.2
    | clients => simpa [lockDiscipline] using hr
    | fanOutSend c => simpa [lockDiscipline] using hr

theorem fanOutAccesses_plain (l : List ClientId) :
    ∀ a ∈ fanOutAccesses l, a ≠ Access.lock ∧ a ≠ Access.unlock := by
  intro a ha
  rcases List.mem_cons.mp ha with e | ha
  · subst e
    exact ⟨(by intro h; cases h), (by intro h; cases h)⟩
  · obtain ⟨c, _, hc⟩ := List.mem_flatMap.mp ha
    simp only [List.mem_cons, List.mem_singleton, List.not_mem_nil, or_false] at hc
    rcases hc with e | e <;> subst e <;> exact ⟨(by intro h; cases h), (by intro h; cases h)⟩

theorem sendPresenceAccesses_ok (s : Hub) :
    lockDiscipline false (sendPresenceAccesses s) = true := by
  show lockDiscipline true (_ ++ (_ ++ (_ ++ [Access.unlock]))) = true
  rw [lockDiscipline_held_append, lockDiscipline_held_append, lockDiscipline_held_append]
  · rfl
  · intro a ha
    obtain ⟨u, _, hu⟩ := List.mem_flatMap.mp ha
    exact fanOutAccesses_plain _ a hu
  · exact fanOutAccesses_plain _
  · intro a ha
    rcases List.mem_cons.mp ha with e | ha
    · subst e
      exact ⟨(by intro h; cases h), (by intro h; cases h)⟩
    · obtain ⟨c, _, hc⟩ := List.mem_map.mp ha
      subst hc
      exact ⟨(by intro h; cases h), (by intro h; cases h)⟩

/-- The state after `n` guests registered, up to the contents of mailboxes. -/
theorem guests_shape (n : Nat) :
    Reachable (guests n) ∧ (guests n).next = n ∧ (guests n).clients = List.range n ∧
    (guests n).clientData = init.clientData ∧ (guests n).broadcast = [] ∧
    (guests n).sharedVideoState = initialVideoState ∧
    ∀ d, ((guests n).heap d).name = (if d < n then "guest" else "") ∧
      ((guests n).heap d).connClosed = (if d < n then false else true) ∧
      ((guests n).heap d).send.cap = (if d < n then 2048 else 0) ∧
      ((guests n).heap d).send.closed = (if d < n then false else true) := by
  induction n with
  | zero =>
    exact ⟨Reachable.init, rfl, rfl, rfl, rfl, rfl, fun d => by simp [guests, init]⟩
  | succ n ih =>
    obtain ⟨hr, hn, hc, hd, hb, hv, hh⟩ := ih
    have hnot : (guests n).next ∉ (guests n).clients := by
      rw [hn, hc, List.mem_range]; exact Nat.lt_irrefl _
    obtain ⟨b1, b2, b3, b4, b5, b6⟩ := trySends_bufOnly
      (presenceSends ((newClient (guests n) "guest").addClient (guests n).next))
      ((newClient (guests n) "guest").addClient (guests n).next)
    refine ⟨Reachable.step hr (Step.register (guests n) "guest"), ?_, ?_, ?_, ?_, ?_, fun d => ?_⟩
    · show (trySends _ _).state.next = n + 1
      rw [b1]
      show (guests n).next + 1 = n + 1
      rw [hn]
    · show (trySends _ _).state.clients = List.range (n + 1)
      rw [b2, List.range_succ]
      show (if (guests n).next ∈ (guests n).clients then (guests n).clients
        else (guests n).clients ++ [(guests n).next]) = _
      rw [if_neg hnot, hc, hn]
    · show (trySends _ _).state.clientData = _
      rw [b3]; exact hd
    · show (trySends _ _).state.broadcast = _
      rw [b4]; exact hb
    · show (trySends _ _).state.sharedVideoState = _
      rw [b5]; exact hv
    · obtain ⟨f1, f2, f3, f4⟩ := b6 d
      obtain ⟨g1, g2, g3, g4⟩ := hh d
      have hheap : ((newClient (guests n) "guest").addClient (guests n).next).heap d =
          if d = n then ⟨"guest", ⟨[], 2048, false⟩, false⟩ else (guests n).heap d := by
        show (if d = (guests n).next then _ else _) = _
        rw [hn]
      show ((trySends _ _).state.heap d).name = _ ∧ ((trySends _ _).state.heap d).connClosed = _ ∧
        ((trySends _ _).state.heap d).send.cap = _ ∧ ((trySends _ _).state.heap d).send.closed = _
      rw [f1, f2, f3, f4, hheap]
      by_cases e : d = n
      · subst e
        simp
      · have hlt : d < n + 1 ↔ d < n :=
          ⟨fun h => Nat.lt_of_le_of_ne (Nat.lt_succ_iff.mp h) e, fun h => Nat.lt_succ_of_lt h⟩
        simp only [if_neg e, g1, g2, g3, g4, hlt, and_self]

theorem crowd_reachable : Reachable crowd := by
  obtain ⟨hr, hn, hc, hd, hb, hv, hh⟩ := guests_shape 2047
  refine Reachable.step hr (Step.buffers (guests 2047) crowd ?_)
  have hcc : crowd.clients = List.range 2047 := by simp only [crowd]
  refine ⟨hn.symm, hcc.trans hc.symm, hd.symm, hb.symm, hv.symm, fun d => ?_⟩
  obtain ⟨g1, g2, g3, g4⟩ := hh d
  rw [g1, g2, g3, g4]
  by_cases e : d < 2047 <;> simp [crowd, init, e]

/-! ## The claims -/

/-- C1: in a sound hub state, the broadcast case of `handleMessages` for a message `msg`
does not panic; it appends `msg` to the mailbox of every client of the set whose
mailbox is not full and keeps that client in the set; it removes from the set exactly
the clients whose mailbox is full, closing their mailbox and stream; clients outside the
set, the counter map, the intake and the shared playback state are untouched. -/
theorem broadcast_delivers_or_evicts (s : Hub) (msg : Message) (hwf : WF s) :
    (handleMessages s (Event.broadcast msg)).ctl = Ctl.next ∧
    (∀ c ∈ s.clients, ¬ s.mailboxFull c →
      c ∈ (handleMessages s (Event.broadcast msg)).state.clients ∧
      (handleMessages s (Event.broadcast msg)).state.heap c = (s.heap c).enqueue msg) ∧
    (∀ c ∈ s.clients, s.mailboxFull c →
      c ∉ (handleMessages s (Event.broadcast msg)).state.clients ∧
      (handleMessages s (Event.broadcast msg)).state.heap c = (s.heap c).shut) ∧
    (∀ c, c ∈ (handleMessages s (Event.broadcast msg)).state.clients ↔
      c ∈ s.clients ∧ ¬ s.mailboxFull c) ∧
    (∀ c, c ∉ s.clients → (handleMessages s (Event.broadcast msg)).state.heap c = s.heap c) ∧
    (handleMessages s (Event.broadcast msg)).state.clientData = s.clientData ∧
    (handleMessages s (Event.broadcast msg)).state.broadcast = s.broadcast ∧
    (handleMessages s (Event.broadcast msg)).state.sharedVideoState = s.sharedVideoState := by
  obtain ⟨h1, _, h3, h4, h5, h6, h7⟩ := broadcastLoop_spec msg s.clients s hwf.1 hwf.2
  have hmem : ∀ c, c ∈ (handleMessages s (Event.broadcast msg)).state.clients ↔
      c ∈ s.clients ∧ ¬ s.mailboxFull c := by
    intro c
    show c ∈ (broadcastLoop msg s.clients s).state.clients ↔ _
    rw [h6, List.mem_filter]
    constructor
    · rintro ⟨a, b⟩
      exact ⟨a, by simpa [a] using b⟩
    · rintro ⟨a, b⟩
      exact ⟨a, by simpa [a] using b⟩
  refine ⟨h1, fun c hc hnf => ⟨(hmem c).mpr ⟨hc, hnf⟩, ?_⟩,
    fun c hc hf => ⟨fun h => ((hmem c).mp h).2 hf, ?_⟩, hmem, fun c hc => ?_, h3, h4, h5⟩
  · show (broadcastLoop msg s.clients s).state.heap c = _
    rw [h7 c]; simp [hc, hnf]
  · show (broadcastLoop msg s.clients s).state.heap c = _
    rw [h7 c]; simp [hc, hf]
  · show (broadcastLoop msg s.clients s).state.heap c = _
    rw [h7 c]; simp [hc]

/-- Witness for C1: a chat message is broadcast after "alice" and "bob" registered, with the
mailbox of "alice" full; "bob" gets the message and "alice" is removed. -/
theorem broadcast_delivers_or_evicts_witness :
    WF saturatedState ∧ saturatedState.mailboxFull 0 ∧ ¬ saturatedState.mailboxFull 1 ∧
    (handleMessages saturatedState (Event.broadcast chatHello)).ctl = Ctl.next ∧
    (1 ∈ (handleMessages saturatedState (Event.broadcast chatHello)).state.clients ∧
      (handleMessages saturatedState (Event.broadcast chatHello)).state.heap 1 =
        (saturatedState.heap 1).enqueue chatHello) ∧
    (0 ∉ (handleMessages saturatedState (Event.broadcast chatHello)).state.clients ∧
      (handleMessages saturatedState (Event.broadcast chatHello)).state.heap 0 =
        (saturatedState.heap 0).shut) := by
  have hwf : WF saturatedState := by decide
  have hfull : saturatedState.mailboxFull 0 := by
    show 2048 ≤ (List.replicate 2048 chatHello).length
    rw [List.length_replicate]
  have hroom : ¬ saturatedState.mailboxFull 1 := by decide
  exact ⟨hwf, hfull, hroom,
    (broadcast_delivers_or_evicts saturatedState chatHello hwf).1,
    (broadcast_delivers_or_evicts saturatedState chatHello hwf).2.1 1 (by decide) hroom,
    (broadcast_delivers_or_evicts saturatedState chatHello hwf).2.2.1 0 (by decide) hfull⟩

/-- C2: the shared playback state never stores `"stop"`.  It is `"pause"` at start; after
`readPump` handled a video message from a session it is that message with the sender
set to the session's name and `"stop"` replaced by `"pause"`, any other playback state
kept as sent; and in every reachable state its playback state is not `"stop"`. -/
theorem sharedVideoState_never_stop :
    init.sharedVideoState.PlaybackState = "pause" ∧
    (∀ (s : Hub) (c : ClientId) (msg : Message), msg.type = "video" →
      (readPump s c msg).state.sharedVideoState =
        { msg with
          Sender := (s.heap c).name
          PlaybackState := if msg.PlaybackState = "stop" then "pause" else msg.PlaybackState }) ∧
    (∀ s : Hub, Reachable s → s.sharedVideoState.PlaybackState ≠ "stop") := by
  refine ⟨rfl, fun s c msg h => ?_, fun s h => (reachable_inv h).2⟩
  rw [readPump_sharedVideoState, if_pos h]

/-- Witness for C2: "alice" sends the video message with `"stop"`. -/
theorem sharedVideoState_never_stop_witness :
    videoStopX.type = "video" ∧
    (readPump aliceBobState 0 videoStopX).state.sharedVideoState =
      { videoStopX with Sender := "alice", PlaybackState := "pause" } ∧
    Reachable (readPump init 0 videoStopX).state ∧
    (readPump init 0 videoStopX).state.sharedVideoState.PlaybackState ≠ "stop" :=
  ⟨by decide, sharedVideoState_never_stop.2.1 aliceBobState 0 videoStopX (by decide),
    Reachable.step Reachable.init (Step.read init 0 videoStopX),
    sharedVideoState_never_stop.2.2 _
      (Reachable.step Reachable.init (Step.read init 0 videoStopX))⟩

/-- C3, as the code has it: one pass of `readPump` on a sync message from the session `c`
changes no client record other than `c`'s, leaves the membership set, the shared
playback state, the counter map and the broadcast intake as they were, and does not
go on to the send into the intake.  When `c`'s mailbox is open and has a free slot,
it gains exactly one message, the current shared playback state, and no unregister
event follows.  When it is open and full, or closed, the pass changes nothing and
hands `c` to the unregister channel (line 170, or the deferred send of lines 115-118
after the panic), and the hub runs its unregister case.  For a member `c` with a full
mailbox in a sound state that event takes `c` out of the membership set, closes its
mailbox and stream with the mailbox contents as they were, and `sendPresence` puts
the presence batch, which holds no video message, into the mailboxes of the remaining
members as far as they have room; the shared playback state, the counter map, the
intake and the sessions outside the set stay as they were.  After a video message
with videoUrl "x", playbackState "stop" and currentTime 12.5 from any session, a
requester whose mailbox is open with room receives a video message with videoUrl "x",
playbackState "pause" and currentTime 12.5. -/
theorem sync_snapshot_or_unregister (s : Hub) (c : ClientId) (msg : Message)
    (h : msg.type = "sync") :
    ((readPump s c msg).state.clients = s.clients ∧
      (readPump s c msg).state.sharedVideoState = s.sharedVideoState ∧
      (readPump s c msg).state.clientData = s.clientData ∧
      (readPump s c msg).state.broadcast = s.broadcast ∧
      (∀ m, (readPump s c msg).ctl ≠ Ctl.forward m) ∧
      (∀ d, d ≠ c → (readPump s c msg).state.heap d = s.heap d)) ∧
    ((s.heap c).send.closed = false → ¬ s.mailboxFull c →
      (readPump s c msg).ctl = Ctl.next ∧
      (readPump s c msg).state.heap c = (s.heap c).enqueue s.sharedVideoState ∧
      readPumpHandover s c msg = readPump s c msg) ∧
    ((s.heap c).send.closed = false → s.mailboxFull c →
      readPump s c msg = ⟨s, Ctl.unregister⟩ ∧
      readPumpHandover s c msg = handleMessages s (Event.unregister c)) ∧
    ((s.heap c).send.closed = true →
      readPump s c msg = ⟨s, Ctl.panic⟩ ∧
      readPumpHandover s c msg = handleMessages s (Event.unregister c)) ∧
    (WF s → c ∈ s.clients → s.mailboxFull c →
      (readPumpHandover s c msg).ctl = Ctl.next ∧
      (readPumpHandover s c msg).state.clients = s.clients.filter (fun d => d ≠ c) ∧
      (readPumpHandover s c msg).state.heap c = (s.heap c).shut ∧
      (readPumpHandover s c msg).state.sharedVideoState = s.sharedVideoState ∧
      (readPumpHandover s c msg).state.clientData = s.clientData ∧
      (readPumpHandover s c msg).state.broadcast = s.broadcast ∧
      (∀ d ∈ s.clients, d ≠ c →
        ((readPumpHandover s c msg).state.heap d).send.buf =
          (s.heap d).send.buf ++
            (presenceBatch (s.unregistered c)).take
              ((s.heap d).send.cap - (s.heap d).send.buf.length)) ∧
      (∀ m ∈ presenceBatch (s.unregistered c), m.type ≠ "video") ∧
      (∀ d, d ∉ s.clients → (readPumpHandover s c msg).state.heap d = s.heap d)) ∧
    (∀ (a : ClientId) (v : Message), v.type = "video" → v.VideoUrl = "x" →
      v.PlaybackState = "stop" → v.CurrentTime = Float64.twelveAndHalf →
      (s.heap c).send.closed = false → ¬ s.mailboxFull c →
      ∃ r : Message,
        ((readPump (readPump s a v).state c msg).state.heap c).send.buf =
          (s.heap c).send.buf ++ [r] ∧
        r.type = "video" ∧ r.VideoUrl = "x" ∧ r.PlaybackState = "pause" ∧
        r.CurrentTime = Float64.twelveAndHalf) := by
  have hframe : (readPump s c msg).state.clients = s.clients ∧
      (readPump s c msg).state.sharedVideoState = s.sharedVideoState ∧
      (readPump s c msg).state.clientData = s.clientData ∧
      (readPump s c msg).state.broadcast = s.broadcast ∧
      (∀ m, (readPump s c msg).ctl ≠ Ctl.forward m) ∧
      (∀ d, d ≠ c → (readPump s c msg).state.heap d = s.heap d) := by
    rw [readPump_sync s c msg h]
    split
    · refine ⟨rfl, rfl, rfl, rfl, fun m hm => Ctl.noConfusion hm, fun d hd => ?_⟩
      simp [Hub.setSend, hd]
    · exact ⟨rfl, rfl, rfl, rfl, fun m hm => Ctl.noConfusion hm, fun d hd => rfl⟩
    · exact ⟨rfl, rfl, rfl, rfl, fun m hm => Ctl.noConfusion hm, fun d hd => rfl⟩
  have hover : ∀ o : Outcome, readPump s c msg = o → o.ctl = Ctl.unregister ∨ o.ctl = Ctl.panic →
      readPumpHandover s c msg = handleMessages o.state (Event.unregister c) := by
    intro o ho hc
    unfold readPumpHandover
    rw [ho]
    rcases hc with e | e <;> rw [e]
  refine ⟨hframe, fun ho hr => ?_, fun ho hf => ?_, fun hcl => ?_, fun hwf hc hf => ?_,
    fun a v hv hx hst ht ho hr => ?_⟩
  · have e := readPump_sync_room s c msg h ho hr
    refine ⟨by rw [e], by rw [e]; simp [Hub.setSend, Client.enqueue], ?_⟩
    unfold readPumpHandover
    rw [e]
  · have e := readPump_sync_full s c msg h ho hf
    exact ⟨e, hover _ e (Or.inl rfl)⟩
  · have e := readPump_sync_closed s c msg h hcl
    exact ⟨e, hover _ e (Or.inr rfl)⟩
  · have e := readPump_sync_full s c msg h (hwf.2 c hc) hf
    have hh : readPumpHandover s c msg = sendPresence (s.unregistered c) := by
      rw [hover _ e (Or.inl rfl)]
      exact unregister_mem s c hwf hc
    have hwfR : WF (s.unregistered c) := wf_remove s c hwf
    obtain ⟨p1, p2, p3, p4⟩ := sendPresence_spec (s.unregistered c) hwfR
    have hRc : (s.unregistered c).clients = s.clients.filter (fun d => d ≠ c) := rfl
    have hRheap : ∀ d, d ≠ c → (s.unregistered c).heap d = s.heap d := by
      intro d hd
      simp [Hub.unregistered, Hub.closeConn, Hub.setSend, Hub.deleteClient, hd]
    have hcR : c ∉ (s.unregistered c).clients := by rw [hRc]; simp
    rw [hh]
    refine ⟨p1, p2.2.1.trans hRc, ?_, p2.2.2.2.2.1, p2.2.2.1, p2.2.2.2.1, fun d hd hne => ?_,
      fun m hm hv => not_mem_presenceBatch _ m hv hm, fun d hd => ?_⟩
    · rw [p4 c hcR]
      simp [Hub.unregistered, Hub.closeConn, Hub.setSend, Hub.deleteClient, Client.shut]
    · have hdR : d ∈ (s.unregistered c).clients := by
        rw [hRc]
        exact List.mem_filter.mpr ⟨hd, by simpa using hne⟩
      rw [p3 d hdR, hRheap d hne]
    · have hne : d ≠ c := fun e' => hd (e' ▸ hc)
      have hdR : d ∉ (s.unregistered c).clients := by
        rw [hRc]
        exact fun hm => hd (List.mem_filter.mp hm).1
      rw [p4 d hdR, hRheap d hne]
  · have hva : (readPump s a v).state =
        { s with sharedVideoState :=
            { v with Sender := (s.heap a).name, PlaybackState := "pause" } } := by
      unfold readPump
      simp only
      rw [if_pos hv, if_pos hst]
    refine ⟨{ v with Sender := (s.heap a).name, PlaybackState := "pause" }, ?_, hv, hx, rfl, ht⟩
    rw [hva, readPump_sync_room { s with sharedVideoState :=
      { v with Sender := (s.heap a).name, PlaybackState := "pause" } } c msg h ho hr]
    simp [Hub.setSend]

/-- Witness for C3 as amended: "alice" sent the video message with `"stop"`, then "bob" asks
for a sync and gets the normalised message as the next message in his mailbox; and a
sync from "alice" while her mailbox is full changes nothing and hands her to the hub. -/
theorem sync_snapshot_or_unregister_witness :
    syncRequest.type = "sync" ∧
    (readPump (readPump aliceBobState 0 videoStopX).state 1 syncRequest).ctl = Ctl.next ∧
    (readPump (readPump aliceBobState 0 videoStopX).state 1 syncRequest).state.heap 1 =
      (aliceBobState.heap 1).enqueue { videoStopX with Sender := "alice", PlaybackState := "pause" } ∧
    readPump saturatedState 0 syncRequest = ⟨saturatedState, Ctl.unregister⟩ ∧
    readPumpHandover saturatedState 0 syncRequest =
      handleMessages saturatedState (Event.unregister 0) := by
  have hfull : saturatedState.mailboxFull 0 := by
    show 2048 ≤ (List.replicate 2048 chatHello).length
    rw [List.length_replicate]
  exact ⟨by decide,
    ((sync_snapshot_or_unregister (readPump aliceBobState 0 videoStopX).state 1 syncRequest
      (by decide)).2.1 (by decide) (by decide)).1,
    ((sync_snapshot_or_unregister (readPump aliceBobState 0 videoStopX).state 1 syncRequest
      (by decide)).2.1 (by decide) (by decide)).2.1,
    ((sync_snapshot_or_unregister saturatedState 0 syncRequest (by decide)).2.2.1
      (by decide) hfull).1,
    ((sync_snapshot_or_unregister saturatedState 0 syncRequest (by decide)).2.2.1
      (by decide) hfull).2⟩

/-- C3 as stated fails: after "alice" and "bob" registered, with 2048 messages waiting in
the mailbox of "alice", a sync message from "alice" finds her mailbox full; the pass
of `readPump` ends at `unregister <- c` (line 170) and the unregister event takes
"alice" out of the membership set and puts two more messages into the mailbox of "bob". -/
theorem sync_full_mailbox_unregisters :
    WF saturatedState ∧ saturatedState.clients = [0, 1] ∧ syncRequest.type = "sync" ∧
    (saturatedState.heap 0).send.closed = false ∧ saturatedState.mailboxFull 0 ∧
    (readPump saturatedState 0 syncRequest).ctl = Ctl.unregister ∧
    (readPumpHandover saturatedState 0 syncRequest).state.clients = [1] ∧
    ((readPumpHandover saturatedState 0 syncRequest).state.heap 1).send.buf.length =
      (saturatedState.heap 1).send.buf.length + 2 := by
  have hfull : saturatedState.mailboxFull 0 := by
    show 2048 ≤ (List.replicate 2048 chatHello).length
    rw [List.length_replicate]
  have e := readPump_sync_full saturatedState 0 syncRequest (by decide) (by decide) hfull
  have hh : readPumpHandover saturatedState 0 syncRequest =
      handleMessages saturatedState (Event.unregister 0) := by
    unfold readPumpHandover
    rw [e]
  refine ⟨by decide, by decide, by decide, by decide, hfull, by rw [e], ?_, ?_⟩
  · rw [hh]; decide
  · rw [hh]; decide

/-- C4: in a sound hub state, after `readPump` handled a watch-hours message with value
`v` from the session `c` named `U` (whatever sender the message carried), the counter
map is the old map with key `U` set to `v`, every other key unchanged; the message
with sender `U` is appended once to the mailbox of every client of the set whose
mailbox is not full, and no other client record changes; nothing goes to the
broadcast intake, and the membership set and the shared playback state are unchanged. -/
theorem watchHours_updates_sender_entry (s : Hub) (c : ClientId) (msg : Message)
    (hwf : WF s) (h : msg.type = "watchHours") :
    (readPump s c msg).ctl = Ctl.next ∧
    (readPump s c msg).state.clientData (s.heap c).name = some msg.WatchHours ∧
    (∀ k, k ≠ (s.heap c).name → (readPump s c msg).state.clientData k = s.clientData k) ∧
    (∀ d ∈ s.clients, ¬ s.mailboxFull d →
      (readPump s c msg).state.heap d =
        (s.heap d).enqueue { msg with Sender := (s.heap c).name }) ∧
    (∀ d, d ∉ s.clients ∨ s.mailboxFull d → (readPump s c msg).state.heap d = s.heap d) ∧
    (readPump s c msg).state.broadcast = s.broadcast ∧
    (readPump s c msg).state.clients = s.clients ∧
    (readPump s c msg).state.sharedVideoState = s.sharedVideoState := by
  have hnv : ¬ (msg.type = "video") := by rw [h]; decide
  have hns : ¬ (msg.type = "sync") := by rw [h]; decide
  have key : readPump s c msg =
      trySends (s.clients.map (fun client => (client, { msg with Sender := (s.heap c).name })))
        { s with clientData := fun k =>
            if k = (s.heap c).name then some msg.WatchHours else s.clientData k } := by
    unfold readPump
    simp only
    rw [if_neg hnv, if_neg hns, if_pos h]
  obtain ⟨g1, g2⟩ := fanOut_spec { msg with Sender := (s.heap c).name } s.clients
    { s with clientData := fun k =>
        if k = (s.heap c).name then some msg.WatchHours else s.clientData k } hwf.1 hwf.2
  obtain ⟨_, b2, b3, b4, b5, _⟩ := trySends_bufOnly
    (s.clients.map (fun client => (client, { msg with Sender := (s.heap c).name })))
    { s with clientData := fun k =>
        if k = (s.heap c).name then some msg.WatchHours else s.clientData k }
  rw [key]
  refine ⟨g1, ?_, fun k hk => ?_, fun d hd hnf => ?_, fun d hd => ?_, b4, b2, b5⟩
  · rw [b3]; simp
  · rw [b3]; simp [hk]
  · rw [g2 d]
    have : d ∈ s.clients ∧ ¬ Hub.mailboxFull
        { s with clientData := fun k =>
            if k = (s.heap c).name then some msg.WatchHours else s.clientData k } d :=
      ⟨hd, hnf⟩
    rw [if_pos this]
  · rw [g2 d]
    have : ¬ (d ∈ s.clients ∧ ¬ Hub.mailboxFull
        { s with clientData := fun k =>
            if k = (s.heap c).name then some msg.WatchHours else s.clientData k } d) := by
      rintro ⟨a, b⟩
      rcases hd with hd | hd
      · exact hd a
      · exact b hd
    rw [if_neg this]

/-- Witness for C4: "alice" reports 3.5 watch hours under a sender field "mallory"; the
counter of "alice" is set and "bob" gets the message with sender "alice". -/
theorem watchHours_updates_sender_entry_witness :
    WF aliceBobState ∧ watchHoursReport.type = "watchHours" ∧
    (readPump aliceBobState 0 watchHoursReport).ctl = Ctl.next ∧
    (readPump aliceBobState 0 watchHoursReport).state.clientData "alice" =
      some Float64.threeAndHalf ∧
    (readPump aliceBobState 0 watchHoursReport).state.heap 1 =
      (aliceBobState.heap 1).enqueue { watchHoursReport with Sender := "alice" } :=
  ⟨by decide, by decide,
    (watchHours_updates_sender_entry aliceBobState 0 watchHoursReport (by decide) (by decide)).1,
    (watchHours_updates_sender_entry aliceBobState 0 watchHoursReport (by decide) (by decide)).2.1,
    (watchHours_updates_sender_entry aliceBobState 0 watchHoursReport (by decide)
      (by decide)).2.2.2.1 1 (by decide) (by decide)⟩

/-- C6: in a sound hub state, two unregister events for `c` in a row leave the same
membership set and the same open or closed status of every mailbox and stream as
one.  The first does not panic, takes `c` out of the set and, when `c` was in it,
closes `c`'s mailbox and stream, touching the status of no other client; the second
does not panic, removes nothing and closes nothing. -/
theorem unregister_twice_as_once (s : Hub) (c : ClientId) (hwf : WF s) :
    (handleMessages s (Event.unregister c)).ctl = Ctl.next ∧
    (handleMessages s (Event.unregister c)).state.clients = s.clients.filter (fun d => d ≠ c) ∧
    (c ∈ s.clients →
      ((handleMessages s (Event.unregister c)).state.heap c).send.closed = true ∧
      ((handleMessages s (Event.unregister c)).state.heap c).connClosed = true) ∧
    (∀ d, d ≠ c ∨ c ∉ s.clients →
      ((handleMessages s (Event.unregister c)).state.heap d).send.closed = (s.heap d).send.closed ∧
      ((handleMessages s (Event.unregister c)).state.heap d).connClosed = (s.heap d).connClosed) ∧
    (handleMessages (handleMessages s (Event.unregister c)).state (Event.unregister c)).ctl
      = Ctl.next ∧
    (handleMessages (handleMessages s (Event.unregister c)).state (Event.unregister c)).state.clients
      = (handleMessages s (Event.unregister c)).state.clients ∧
    (∀ d,
      ((handleMessages (handleMessages s (Event.unregister c)).state
          (Event.unregister c)).state.heap d).send.closed =
        ((handleMessages s (Event.unregister c)).state.heap d).send.closed ∧
      ((handleMessages (handleMessages s (Event.unregister c)).state
          (Event.unregister c)).state.heap d).connClosed =
        ((handleMessages s (Event.unregister c)).state.heap d).connClosed) := by
  -- the second event finds `c` absent, whatever the first one did
  have second : ∀ t : Hub, WF t → c ∉ t.clients →
      (handleMessages t (Event.unregister c)).ctl = Ctl.next ∧
      (handleMessages t (Event.unregister c)).state.clients = t.clients ∧
      ∀ d, ((handleMessages t (Event.unregister c)).state.heap d).send.closed
            = (t.heap d).send.closed ∧
          ((handleMessages t (Event.unregister c)).state.heap d).connClosed
            = (t.heap d).connClosed := by
    intro t ht hct
    rw [unregister_not_mem t c hct]
    obtain ⟨p1, p2, _, _⟩ := sendPresence_spec t ht
    exact ⟨p1, p2.2.1, fun d => ⟨(p2.2.2.2.2.2 d).2.2.2, (p2.2.2.2.2.2 d).2.1⟩⟩
  by_cases hc : c ∈ s.clients
  · have hwf1 := wf_remove s c hwf
    obtain ⟨p1, p2, _, _⟩ := sendPresence_spec _ hwf1
    have hcl : (handleMessages s (Event.unregister c)).state.clients
        = s.clients.filter (fun d => d ≠ c) := by
      rw [unregister_mem s c hwf hc, p2.2.1]; rfl
    have hnot : c ∉ (handleMessages s (Event.unregister c)).state.clients := by
      rw [hcl]; simp
    have hwf2 : WF (handleMessages s (Event.unregister c)).state := by
      rw [unregister_mem s c hwf hc]; exact wf_bufOnly p2 hwf1
    obtain ⟨q1, q2, q3⟩ := second _ hwf2 hnot
    refine ⟨?_, hcl, fun _ => ?_, fun d hd => ?_, q1, q2, q3⟩
    · rw [unregister_mem s c hwf hc]; exact p1
    · rw [unregister_mem s c hwf hc, (p2.2.2.2.2.2 c).2.2.2, (p2.2.2.2.2.2 c).2.1]
      simp [Hub.closeConn, Hub.setSend, Hub.deleteClient]
    · have hne : d ≠ c := by
        rcases hd with h | h
        · exact h
        · exact absurd hc h
      rw [unregister_mem s c hwf hc, (p2.2.2.2.2.2 d).2.2.2, (p2.2.2.2.2.2 d).2.1]
      simp [Hub.closeConn, Hub.setSend, Hub.deleteClient, hne]
  · obtain ⟨p1, p2, p3⟩ := second s hwf hc
    have hcl : (handleMessages s (Event.unregister c)).state.clients
        = s.clients.filter (fun d => d ≠ c) := by
      rw [p2]
      symm
      apply List.filter_eq_self.mpr
      intro d hd
      have : d ≠ c := fun e => hc (e ▸ hd)
      simpa using this
    have hwf2 : WF (handleMessages s (Event.unregister c)).state := by
      rw [unregister_not_mem s c hc]; exact wf_bufOnly (trySends_bufOnly _ _) hwf
    have hnot : c ∉ (handleMessages s (Event.unregister c)).state.clients := by
      rw [p2]; exact hc
    obtain ⟨q1, q2, q3⟩ := second _ hwf2 hnot
    exact ⟨p1, hcl, fun h => absurd h hc, fun d _ => p3 d, q1, q2, q3⟩

/-- Witness for C6: "bob" is unregistered twice after "alice" and "bob" registered. -/
theorem unregister_twice_as_once_witness :
    WF aliceBobState ∧
    (handleMessages aliceBobState (Event.unregister 1)).ctl = Ctl.next ∧
    (handleMessages aliceBobState (Event.unregister 1)).state.clients
      = aliceBobState.clients.filter (fun d => d ≠ 1) :=
  ⟨by decide, (unregister_twice_as_once aliceBobState 1 (by decide)).1,
    (unregister_twice_as_once aliceBobState 1 (by decide)).2.1⟩

/-- C7: in every reachable state, a session that was created and registered (its id is
below `next`) is in the membership set if and only if its mailbox is open, and the set
holds only such sessions.  Hence no event panics there: the only panics of the program
are a close of a closed mailbox and a send on a closed mailbox, and the register case
for a fresh session, the unregister case, the broadcast case and `sendPresence` all
run to their end. -/
theorem member_iff_mailbox_open (s : Hub) (h : Reachable s) :
    (∀ c, c < s.next → (c ∈ s.clients ↔ (s.heap c).send.closed = false)) ∧
    (∀ c ∈ s.clients, c < s.next) ∧
    (∀ username, (handleMessages (newClient s username) (Event.register s.next)).ctl = Ctl.next) ∧
    (∀ c, (handleMessages s (Event.unregister c)).ctl = Ctl.next) ∧
    (∀ msg, (handleMessages s (Event.broadcast msg)).ctl = Ctl.next) ∧
    (sendPresence s).ctl = Ctl.next := by
  have hi := (reachable_inv h).1
  have hwf := inv_wf hi
  refine ⟨fun c hc => ⟨fun hm => (hi.2.1 c hm).2, fun ho => ?_⟩, fun c hc => (hi.2.1 c hc).1,
    fun username => ?_, fun c => ?_, fun msg => ?_, (sendPresence_spec s hwf).1⟩
  · by_contra hn
    have := hi.2.2 c hc hn
    rw [ho] at this
    cases this
  · exact (sendPresence_spec _ (inv_wf (inv_register s username hi))).1
  · by_cases hc : c ∈ s.clients
    · rw [unregister_mem s c hwf hc]
      exact (sendPresence_spec _ (wf_remove s c hwf)).1
    · rw [unregister_not_mem s c hc]
      exact (sendPresence_spec s hwf).1
  · exact (broadcastLoop_spec msg s.clients s hwf.1 hwf.2).1

/-- Witness for C7: the state after "alice" connected is reachable. -/
theorem member_iff_mailbox_open_witness :
    Reachable aliceState ∧
    (∀ c, c < aliceState.next → (c ∈ aliceState.clients ↔ (aliceState.heap c).send.closed = false)) :=
  ⟨Reachable.step Reachable.init (Step.register init "alice"),
    (member_iff_mailbox_open aliceState
      (Reachable.step Reachable.init (Step.register init "alice"))).1⟩

/-- C8: in a sound hub state, `sendPresence` builds a presence message whose users list
has one entry per client of the membership set, that client's name, in the order
the clients are visited; it does not panic and leaves the membership set as it was;
every client of the set whose mailbox has room gets the presence message as the next
message in its mailbox (followed by the watch-hours messages that still fit); a
client whose mailbox is full is skipped and stays as it was, in the set and open;
clients outside the set are untouched.  After "alice" and "bob" registered, the
presence message in both mailboxes lists "alice" and "bob". -/
theorem sendPresence_lists_members (s : Hub) (hwf : WF s) :
    (presenceMsg s).type = "presence" ∧
    (presenceMsg s).Users = s.clients.map (fun c => (s.heap c).name) ∧
    (sendPresence s).ctl = Ctl.next ∧
    (sendPresence s).state.clients = s.clients ∧
    (∀ c ∈ s.clients, ¬ s.mailboxFull c →
      ∃ rest, ((sendPresence s).state.heap c).send.buf =
        (s.heap c).send.buf ++ presenceMsg s :: rest) ∧
    (∀ c ∈ s.clients, s.mailboxFull c → (sendPresence s).state.heap c = s.heap c) ∧
    (∀ c, c ∉ s.clients → (sendPresence s).state.heap c = s.heap c) ∧
    (∃ m ∈ (aliceBobState.heap 0).send.buf, m.type = "presence" ∧ m.Users = ["alice", "bob"]) ∧
    (∃ m ∈ (aliceBobState.heap 1).send.buf, m.type = "presence" ∧ m.Users = ["alice", "bob"]) := by
  obtain ⟨p1, p2, p3, p4⟩ := sendPresence_spec s hwf
  refine ⟨rfl, ?_, p1, p2.2.1, fun c hc hnf => ?_, fun c hc hf => ?_, p4, by decide, by decide⟩
  · simp [presenceMsg, presenceUsers, List.map_map, Function.comp_def]
  · obtain ⟨n, hn⟩ : ∃ n, (s.heap c).send.cap - (s.heap c).send.buf.length = n + 1 :=
      ⟨(s.heap c).send.cap - (s.heap c).send.buf.length - 1, by
        unfold Hub.mailboxFull at hnf; omega⟩
    refine ⟨((presenceUsers s).map watchHoursMsg).take n, ?_⟩
    rw [p3 c hc, hn]
    rfl
  · have h0 : (s.heap c).send.cap - (s.heap c).send.buf.length = 0 := by
      unfold Hub.mailboxFull at hf; omega
    have hbuf := p3 c hc
    rw [h0] at hbuf
    simp only [List.take_zero, List.append_nil] at hbuf
    obtain ⟨f1, f2, f3, f4⟩ := p2.2.2.2.2.2 c
    exact client_eq f1 f2 hbuf f3 f4

/-- Witness for C8: `sendPresence` after "alice" and "bob" registered. -/
theorem sendPresence_lists_members_witness :
    WF aliceBobState ∧
    (presenceMsg aliceBobState).Users = aliceBobState.clients.map (fun c => (aliceBobState.heap c).name) ∧
    (sendPresence aliceBobState).state.clients = aliceBobState.clients :=
  ⟨by decide, (sendPresence_lists_members aliceBobState (by decide)).2.1,
    (sendPresence_lists_members aliceBobState (by decide)).2.2.2.1⟩

/-- C9, as the code has it: in a sound hub state, an unregister event for a session that
is not in the membership set removes and closes nothing but still runs
`sendPresence`: it does not panic; the membership set, the shared playback state,
the counter map, the broadcast intake and the name and open or closed status of every
session are unchanged; the mailbox of every client of the set gains the presence
batch as far as it has room; sessions outside the set are untouched; and when the set
is empty the whole state is unchanged. -/
theorem unregister_absent_only_republishes (s : Hub) (c : ClientId) (hwf : WF s)
    (hc : c ∉ s.clients) :
    handleMessages s (Event.unregister c) = sendPresence s ∧
    (handleMessages s (Event.unregister c)).ctl = Ctl.next ∧
    BufOnly s (handleMessages s (Event.unregister c)).state ∧
    (∀ d ∈ s.clients, ((handleMessages s (Event.unregister c)).state.heap d).send.buf =
      (s.heap d).send.buf ++
        (presenceBatch s).take ((s.heap d).send.cap - (s.heap d).send.buf.length)) ∧
    (∀ d, d ∉ s.clients → (handleMessages s (Event.unregister c)).state.heap d = s.heap d) ∧
    (s.clients = [] → (handleMessages s (Event.unregister c)).state = s) := by
  rw [unregister_not_mem s c hc]
  obtain ⟨p1, p2, p3, p4⟩ := sendPresence_spec s hwf
  refine ⟨rfl, p1, p2, p3, p4, fun he => ?_⟩
  simp [sendPresence, presenceSends, presenceUsers, he, trySends]

/-- Witness for C9 as amended: a second unregister event for "bob". -/
theorem unregister_absent_only_republishes_witness :
    WF bobGoneState ∧ 1 ∉ bobGoneState.clients ∧
    handleMessages bobGoneState (Event.unregister 1) = sendPresence bobGoneState ∧
    (handleMessages bobGoneState (Event.unregister 1)).ctl = Ctl.next :=
  ⟨by decide, by decide,
    (unregister_absent_only_republishes bobGoneState 1 (by decide) (by decide)).1,
    (unregister_absent_only_republishes bobGoneState 1 (by decide) (by decide)).2.1⟩

/-- C9 as stated fails: after "alice" and "bob" registered and "bob" was unregistered,
a second unregister event for "bob", who is no longer in the membership set, puts two
more messages into the mailbox of "alice". -/
theorem unregister_absent_changes_mailbox :
    1 ∉ bobGoneState.clients ∧
    ((handleMessages bobGoneState (Event.unregister 1)).state.heap 0).send.buf
      ≠ (bobGoneState.heap 0).send.buf ∧
    ((handleMessages bobGoneState (Event.unregister 1)).state.heap 0).send.buf.length
      = (bobGoneState.heap 0).send.buf.length + 2 := by
  decide

/-- C5, as the code has it: in a sound hub state whose shared playback state is a video
message (every reachable state is both), for a session `c` whose mailbox is open:
the register case does not panic, puts `c` in the membership set and leaves its
mailbox open and the shared playback state as it was.  The snapshot is sent by the
goroutine: in whatever state `t` its first `select` starts, if `c`'s mailbox is open
and has a free slot there, the shared playback state of `t` is appended to it at once
and nothing else changes.  So `c`'s mailbox contains a video message equal to the
current shared playback state when the goroutine starts right after the insertion and
the mailbox has room, and also when it starts right after the `sendPresence` of the
register case and the mailbox has room for the presence batch (one presence message
and one watch-hours message per member, `c` included) and one message more.  When
the goroutine finds the mailbox full, the send waits: it goes through if `writePump`
takes a message during the wait, and if no other task does anything during the three
waits the goroutine goes on to `unregister <- c`.  The initial shared playback state
has videoUrl "", playbackState "pause" and currentTime 0. -/
theorem register_then_snapshot (s : Hub) (c : ClientId) (w1 w2 w3 : List (Hub → Hub))
    (hwf : WF s) (hopen : (s.heap c).send.closed = false)
    (hvid : s.sharedVideoState.type = "video") :
    ((handleMessages s (Event.register c)).ctl = Ctl.next ∧
      c ∈ (handleMessages s (Event.register c)).state.clients ∧
      ((handleMessages s (Event.register c)).state.heap c).send.closed = false ∧
      (handleMessages s (Event.register c)).state.sharedVideoState = s.sharedVideoState) ∧
    (∀ t : Hub, (t.heap c).send.closed = false → ¬ t.mailboxFull c →
      (sendInitialState w1 w2 w3 t c).ctl = Ctl.next ∧
      (sendInitialState w1 w2 w3 t c).state.heap c = (t.heap c).enqueue t.sharedVideoState ∧
      (sendInitialState w1 w2 w3 t c).state.clients = t.clients ∧
      (sendInitialState w1 w2 w3 t c).state.sharedVideoState = t.sharedVideoState ∧
      ∀ d, d ≠ c → (sendInitialState w1 w2 w3 t c).state.heap d = t.heap d) ∧
    (¬ s.mailboxFull c →
      (sendInitialState w1 w2 w3 (s.addClient c) c).ctl = Ctl.next ∧
      (sendPresence (sendInitialState w1 w2 w3 (s.addClient c) c).state).ctl = Ctl.next ∧
      c ∈ (sendPresence (sendInitialState w1 w2 w3 (s.addClient c) c).state).state.clients ∧
      ∃ m ∈ ((sendPresence (sendInitialState w1 w2 w3 (s.addClient c) c).state).state.heap
          c).send.buf,
        m = s.sharedVideoState ∧ m.type = "video") ∧
    ((s.heap c).send.buf.length + (s.addClient c).clients.length + 1 < (s.heap c).send.cap →
      (sendInitialState w1 w2 w3 (handleMessages s (Event.register c)).state c).ctl = Ctl.next ∧
      c ∈ (sendInitialState w1 w2 w3 (handleMessages s (Event.register c)).state c).state.clients ∧
      ∃ m ∈ ((sendInitialState w1 w2 w3 (handleMessages s (Event.register c)).state
          c).state.heap c).send.buf,
        m = s.sharedVideoState ∧ m.type = "video") ∧
    (∀ t : Hub, (t.heap c).send.closed = false →
      (t.heap c).send.buf.length = (t.heap c).send.cap → 0 < (t.heap c).send.cap →
      (sendInitialState ((fun u => recvMailbox u c) :: w1) w2 w3 t c).ctl = Ctl.next ∧
      ((sendInitialState ((fun u => recvMailbox u c) :: w1) w2 w3 t c).state.heap c).send.buf =
        (t.heap c).send.buf.tail ++ [t.sharedVideoState]) ∧
    (∀ t : Hub, (t.heap c).send.closed = false → t.mailboxFull c →
      sendInitialState [] [] [] t c = ⟨t, Ctl.unregister⟩) ∧
    (∀ t : Hub, Reachable t → WF t ∧ t.sharedVideoState.type = "video") ∧
    (initialVideoState.type = "video" ∧ initialVideoState.VideoUrl = "" ∧
      initialVideoState.PlaybackState = "pause" ∧
      initialVideoState.CurrentTime = Float64.zero) := by
  obtain ⟨q1, q2, q3⟩ := register_spec s c hwf hopen
  have hsame : (s.addClient c).heap c = s.heap c := rfl
  have hsvs : (s.addClient c).sharedVideoState = s.sharedVideoState := rfl
  have room : ∀ t : Hub, (t.heap c).send.closed = false → ¬ t.mailboxFull c →
      sendInitialState w1 w2 w3 t c =
        ⟨t.setSend c { (t.heap c).send with buf := (t.heap c).send.buf ++ [t.sharedVideoState] },
          Ctl.next⟩ := by
    intro t ho hr
    have hlt : (t.heap c).send.buf.length < (t.heap c).send.cap := by
      unfold Hub.mailboxFull at hr; omega
    exact sendInitialState_room w1 w2 w3 t c ho hlt
  refine ⟨⟨q1, ?_, ?_, ?_⟩, fun t ho hr => ?_, fun hr => ?_, fun hbig => ?_,
    fun t ho hf hpos => sendInitialState_after_recv w1 w2 w3 t c ho hf hpos,
    fun t ho hf => sendInitialState_stalled t c ho hf,
    fun t ht => ⟨inv_wf (reachable_inv ht).1, reachable_video ht⟩, ⟨rfl, rfl, rfl, rfl⟩⟩
  · rw [q2.2.1]; exact mem_addClient s c
  · rw [(q2.2.2.2.2.2 c).2.2.2]; exact hopen
  · rw [q2.2.2.2.2.1, hsvs]
  · rw [room t ho hr]
    refine ⟨rfl, ?_, rfl, rfl, fun d hd => ?_⟩
    · simp [Hub.setSend, Client.enqueue]
    · simp [Hub.setSend, hd]
  · have hg := room (s.addClient c) hopen hr
    have hb := bufOnly_setSend (s.addClient c) c
      { ((s.addClient c).heap c).send with
        buf := ((s.addClient c).heap c).send.buf ++ [(s.addClient c).sharedVideoState] } rfl rfl
    have hwf1 := wf_bufOnly hb (wf_addClient s c hwf hopen)
    obtain ⟨p1, p2, p3, _⟩ := sendPresence_spec _ hwf1
    have hc1 : c ∈ ((s.addClient c).setSend c
        { ((s.addClient c).heap c).send with
          buf := ((s.addClient c).heap c).send.buf ++ [(s.addClient c).sharedVideoState] }).clients :=
      mem_addClient s c
    rw [hg]
    refine ⟨rfl, p1, ?_, s.sharedVideoState, ?_, rfl, hvid⟩
    · show c ∈ (sendPresence _).state.clients
      rw [p2.2.1]; exact hc1
    · show s.sharedVideoState ∈ ((sendPresence _).state.heap c).send.buf
      rw [p3 c hc1]
      apply List.mem_append_left
      simp [Hub.setSend, hsvs]
  · have ho1 : ((handleMessages s (Event.register c)).state.heap c).send.closed = false := by
      rw [(q2.2.2.2.2.2 c).2.2.2]; exact hopen
    have hr1 : ¬ (handleMessages s (Event.register c)).state.mailboxFull c := by
      unfold Hub.mailboxFull
      rw [(q2.2.2.2.2.2 c).2.2.1, q3, List.length_append, List.length_take, presenceBatch_length,
        hsame]
      omega
    rw [room _ ho1 hr1]
    refine ⟨rfl, ?_, s.sharedVideoState, ?_, rfl, hvid⟩
    · show c ∈ (handleMessages s (Event.register c)).state.clients
      rw [q2.2.1]; exact mem_addClient s c
    · simp [Hub.setSend, q2.2.2.2.2.1, hsvs]

/-- Witness for C5 as amended: "bob" connects after "alice"; his mailbox is empty, so the
goroutine delivers the snapshot after the `sendPresence` of the register case. -/
theorem register_then_snapshot_witness :
    WF (newClient aliceState "bob") ∧
    ((newClient aliceState "bob").heap 1).send.closed = false ∧
    (newClient aliceState "bob").sharedVideoState.type = "video" ∧
    1 ∈ (handleMessages (newClient aliceState "bob") (Event.register 1)).state.clients ∧
    (sendInitialState [] [] []
      (handleMessages (newClient aliceState "bob") (Event.register 1)).state 1).ctl = Ctl.next ∧
    ∃ m ∈ ((sendInitialState [] [] []
        (handleMessages (newClient aliceState "bob") (Event.register 1)).state 1).state.heap
          1).send.buf,
      m = (newClient aliceState "bob").sharedVideoState ∧ m.type = "video" :=
  ⟨by decide, by decide, by decide,
    (register_then_snapshot (newClient aliceState "bob") 1 [] [] [] (by decide) (by decide)
      (by decide)).1.2.1,
    ((register_then_snapshot (newClient aliceState "bob") 1 [] [] [] (by decide) (by decide)
      (by decide)).2.2.2.1 (by decide)).1,
    ((register_then_snapshot (newClient aliceState "bob") 1 [] [] [] (by decide) (by decide)
      (by decide)).2.2.2.1 (by decide)).2.2⟩

/-- C5 as stated fails: after 2047 clients connected and their mailboxes were emptied (a
reachable state), "alice" connects with an empty mailbox of capacity 2048, open and
with room.  The register case puts the presence message and 2047 watch-hours messages
into her mailbox, which is then full.  When the goroutine starts after that and no
other task does anything during its three waits, the three passes end on the timer,
the goroutine goes on to `unregister <- c`, and her mailbox holds no video message. -/
theorem register_snapshot_not_delivered :
    Reachable crowd ∧ WF fullHouse ∧ 2047 ∉ fullHouse.clients ∧
    (fullHouse.heap 2047).send = ⟨[], 2048, false⟩ ∧ ¬ fullHouse.mailboxFull 2047 ∧
    fullHouse.sharedVideoState.type = "video" ∧
    (sendInitialState [] [] [] (handleMessages fullHouse (Event.register 2047)).state 2047).ctl
      = Ctl.unregister ∧
    ((sendInitialState [] [] [] (handleMessages fullHouse (Event.register 2047)).state
        2047).state.heap 2047).send.buf.length = 2048 ∧
    (∀ m ∈ ((sendInitialState [] [] [] (handleMessages fullHouse (Event.register 2047)).state
        2047).state.heap 2047).send.buf, m.type ≠ "video") := by
  have hcl : fullHouse.clients = List.range 2047 := by
    simp only [fullHouse, newClient, crowd]
  have hnot : (2047 : ClientId) ∉ fullHouse.clients := by
    rw [hcl, List.mem_range]; exact Nat.lt_irrefl _
  have hsend : (fullHouse.heap 2047).send = ⟨[], 2048, false⟩ := by
    simp [fullHouse, newClient, crowd]
  have hwf : WF fullHouse := by
    refine ⟨hcl ▸ List.nodup_range 2047, fun d hd => ?_⟩
    rw [hcl, List.mem_range] at hd
    have hne : d ≠ 2047 := Nat.ne_of_lt hd
    simp [fullHouse, newClient, crowd, hne, hd]
  have hopen : (fullHouse.heap 2047).send.closed = false := by rw [hsend]
  have hadd : (fullHouse.addClient 2047).clients = List.range 2047 ++ [2047] := by
    have h : (2047 : ClientId) ∉ List.range 2047 := hcl ▸ hnot
    simp only [Hub.addClient, hcl, if_neg h]
  have hlen : (fullHouse.addClient 2047).clients.length = 2048 := by
    rw [hadd, List.length_append, List.length_range, List.length_singleton]
  obtain ⟨t1, t2⟩ := register_then_stalled fullHouse 2047 hwf hopen
    (by rw [hsend, hlen]; decide)
  refine ⟨crowd_reachable, hwf, hnot, hsend, ?_, rfl, t1, ?_, ?_⟩
  · unfold Hub.mailboxFull; rw [hsend]; decide
  · rw [t2, hsend, List.length_append, List.length_take, presenceBatch_length, hlen]
    decide
  · rw [t2, hsend]
    intro m hm hv
    exact not_mem_presenceBatch _ m hv (List.mem_of_mem_take (by simpa using hm))

/-- C10 fails on the watch-hours branch of `readPump`: in every state and for every
watch-hours message, the fan-out of `server.go:179-185` reads `clients` and sends into
mailboxes after `mu` was released at line 177, so the trace breaks the lock
discipline; the traces of `handleMessages` and of `sendPresence` keep it in every
state. -/
theorem watchHours_fanOut_outside_lock :
    lockDiscipline false (readPumpAccesses aliceBobState 0 watchHoursReport) = false ∧
    (∀ (s : Hub) (c : ClientId) (msg : Message), msg.type = "watchHours" →
      lockDiscipline false (readPumpAccesses s c msg) = false) ∧
    (∀ (s : Hub) (e : Event), lockDiscipline false (handleMessagesAccesses s e) = true) ∧
    (∀ s : Hub, lockDiscipline false (sendPresenceAccesses s) = true) := by
  refine ⟨by decide, fun s c msg hm => ?_, fun s e => ?_, sendPresenceAccesses_ok⟩
  · have hnv : ¬ (msg.type = "video") := by rw [hm]; decide
    have hns : ¬ (msg.type = "sync") := by rw [hm]; decide
    unfold readPumpAccesses
    simp only
    rw [if_neg hnv, if_neg hns, if_pos hm]
    rfl
  · cases e with
    | register client =>
      show (true && (true && lockDiscipline false (sendPresenceAccesses _))) = true
      rw [sendPresenceAccesses_ok]
      rfl
    | unregister client =>
      show (true && lockDiscipline true (_ ++ (Access.unlock :: sendPresenceAccesses _))) = true
      rw [lockDiscipline_held_append]
      · show (true && lockDiscipline false (sendPresenceAccesses _)) = true
        rw [sendPresenceAccesses_ok]
        rfl
      · intro a ha
        split at ha
        · simp only [List.mem_cons, List.mem_singleton, List.not_mem_nil, or_false, or_self] at ha
          subst ha
          exact ⟨(by intro h; cases h), (by intro h; cases h)⟩
        · cases ha
    | broadcast msg =>
      show (true && lockDiscipline true (_ ++ [Access.unlock])) = true
      rw [lockDiscipline_held_append]
      · rfl
      · intro a ha
        obtain ⟨c, _, hc⟩ := List.mem_flatMap.mp ha
        rcases List.mem_cons.mp hc with e | h1
        · subst e
          exact ⟨(by intro h; cases h), (by intro h; cases h)⟩
        · rcases List.mem_append.mp h1 with h2 | h2
          · split at h2
            · rw [List.mem_singleton] at h2
              subst h2
              exact ⟨(by intro h; cases h), (by intro h; cases h)⟩
            · cases h2
          · rw [List.mem_singleton] at h2
            subst h2
            exact ⟨(by intro h; cases h), (by intro h; cases h)⟩

end Link2Gether
